import Mathlib

/-!
Verification development for the ez-reset utility: a shallow embedding of
the IEEE 1284.4 ("D4") transport layer, the printer command layer and the
status decoder, together with theorems settling the specification's claims.

Bytes are modelled as natural numbers (with explicit range conditions where
the Python code would raise on out-of-range values), byte strings as lists
of naturals, Python integers as Int where subtraction matters, and fallible
code as Option or Except.
-/

namespace EzReset

/-! ## Byte-string helpers (int.from_bytes / int.to_bytes / struct packing) -/

/-- Little-endian interpretation of a byte string, as in
int.from_bytes(data, "little"). -/
def fromBytesLE : List Nat → Nat
  | [] => 0
  | b :: rest => b + 256 * fromBytesLE rest

/-- Big-endian interpretation of two bytes, the H field of struct.unpack(">..H..").  -/
def fromBytesBE2 (hi lo : Nat) : Nat := hi * 256 + lo

/-- Big-endian encoding of a u16, the H field of struct.pack(">..H..").  -/
def toBytesBE2 (v : Nat) : List Nat := [v / 256 % 256, v % 256]

/-- Little-endian encoding of a u16, as in value.to_bytes(2, "little"). -/
def toBytesLE2 (v : Nat) : List Nat := [v % 256, v / 256 % 256]

/-! ## Model of src/ez_reset/status.py -/

/-- PrinterState enum from status.py. -/
inductive PrinterState where
  | ERROR | SELF_PRINTING | BUSY | WAITING | IDLE | PAUSE | INKDRYING
  | CLEANING | FACTORY_SHIPMENT | MOTOR_DRIVE_OFF | SHUTDOWN
  | WAITPAPERINIT | INIT_PAPER
  deriving Repr, DecidableEq

/-- PrinterState(value) with the _missing_ fallback to ERROR. -/
def PrinterState.fromRaw (v : Int) : PrinterState :=
  if v = 0x00 then .ERROR
  else if v = 0x01 then .SELF_PRINTING
  else if v = 0x02 then .BUSY
  else if v = 0x03 then .WAITING
  else if v = 0x04 then .IDLE
  else if v = 0x05 then .PAUSE
  else if v = 0x06 then .INKDRYING
  else if v = 0x07 then .CLEANING
  else if v = 0x08 then .FACTORY_SHIPMENT
  else if v = 0x09 then .MOTOR_DRIVE_OFF
  else if v = 0x0A then .SHUTDOWN
  else if v = 0x0B then .WAITPAPERINIT
  else if v = 0x0C then .INIT_PAPER
  else .ERROR

/-- PrinterError enum from status.py. -/
inductive PrinterError where
  | NONE | FATAL | INTERFACE | PAPERJAM | INKOUT | PAPEROUT | PAPERSIZE
  | PAPERPATH | SERVICEREQ | DOUBLEFEED | INKCOVEROPEN | NOMAINTENANCEBOX
  | COVEROPEN | NOTRAY | CARDLOADING | CDDVDCONFIG | CARTRIDGEOVERFLOW
  | BATTERYVOLTAGE | BATTERYTEMPERATURE | BATTERYEMPTY | SHUTOFF
  | NOT_INITIALFILL | PRINTPACKEND | MAINTENANCEBOXCOVEROPEN | SCANNEROPEN
  | CDRGUIDEOPEN | CDREXIST | CDREXIST_MAINTE | TRAYCLOSE
  deriving Repr, DecidableEq

/-- PrinterError(value) with the _missing_ fallback to FATAL. -/
def PrinterError.fromRaw (v : Int) : PrinterError :=
  if v = -1 then .NONE
  else if v = 0x00 then .FATAL
  else if v = 0x01 then .INTERFACE
  else if v = 0x04 then .PAPERJAM
  else if v = 0x05 then .INKOUT
  else if v = 0x06 then .PAPEROUT
  else if v = 0x0A then .PAPERSIZE
  else if v = 0x0C then .PAPERPATH
  else if v = 0x10 then .SERVICEREQ
  else if v = 0x12 then .DOUBLEFEED
  else if v = 0x1A then .INKCOVEROPEN
  else if v = 0x22 then .NOMAINTENANCEBOX
  else if v = 0x25 then .COVEROPEN
  else if v = 0x29 then .NOTRAY
  else if v = 0x2A then .CARDLOADING
  else if v = 0x2B then .CDDVDCONFIG
  else if v = 0x2C then .CARTRIDGEOVERFLOW
  else if v = 0x2F then .BATTERYVOLTAGE
  else if v = 0x30 then .BATTERYTEMPERATURE
  else if v = 0x31 then .BATTERYEMPTY
  else if v = 0x32 then .SHUTOFF
  else if v = 0x33 then .NOT_INITIALFILL
  else if v = 0x34 then .PRINTPACKEND
  else if v = 0x36 then .MAINTENANCEBOXCOVEROPEN
  else if v = 0x37 then .SCANNEROPEN
  else if v = 0x38 then .CDRGUIDEOPEN
  else if v = 0x44 then .CDREXIST
  else if v = 0x45 then .CDREXIST_MAINTE
  else if v = 0x46 then .TRAYCLOSE
  else .FATAL

/-- PaperPath enum from status.py. -/
inductive PaperPath where
  | UNKNOWN | ROLL | FANFOLD | ROLL_BACK
  deriving Repr, DecidableEq

/-- PaperPath(value) with the _missing_ fallback to UNKNOWN. -/
def PaperPath.fromRaw (v : Int) : PaperPath :=
  if v = -1 then .UNKNOWN
  else if v = 0x00 then .ROLL
  else if v = 0x01 then .FANFOLD
  else if v = 0x02 then .ROLL_BACK
  else .UNKNOWN

/-- ConsumableStatus enum from status.py. -/
inductive ConsumableStatus where
  | OKAY | EMPTY | MISSING | FAIL | UNKNOWN
  deriving Repr, DecidableEq

/-- ConsumableLevel dataclass from status.py. -/
structure ConsumableLevel where
  level : Int
  status : ConsumableStatus
  deriving Repr, DecidableEq

/-- ConsumableLevel.from_int from status.py: parse level and status
information from a raw level value. -/
def ConsumableLevel.from_int (level : Int) : ConsumableLevel :=
  if level = 110 then ⟨-1, .MISSING⟩
  else if level = 105 then ⟨-1, .UNKNOWN⟩
  else if level < 0 ∨ level > 100 then ⟨-1, .FAIL⟩
  else if level = 0 then ⟨level, .EMPTY⟩
  else ⟨level, .OKAY⟩

/-- InkColor enum from status.py. -/
inductive InkColor where
  | BLACK | CYAN | MAGENTA | YELLOW | LIGHT_CYAN | LIGHT_MAGENTA
  | DARK_YELLOW | GRAY | LIGHT_BLACK | RED | BLUE | GLOSS_OPTIMIZER
  | LIGHT_GRAY | ORANGE | UNKNOWN
  deriving Repr, DecidableEq

/-- InkColor(value) with the _missing_ fallback to UNKNOWN. -/
def InkColor.fromRaw (v : Int) : InkColor :=
  if v = 0 then .BLACK
  else if v = 1 then .CYAN
  else if v = 2 then .MAGENTA
  else if v = 3 then .YELLOW
  else if v = 4 then .LIGHT_CYAN
  else if v = 5 then .LIGHT_MAGENTA
  else if v = 6 then .DARK_YELLOW
  else if v = 7 then .GRAY
  else if v = 8 then .LIGHT_BLACK
  else if v = 9 then .RED
  else if v = 10 then .BLUE
  else if v = 11 then .GLOSS_OPTIMIZER
  else if v = 12 then .LIGHT_GRAY
  else if v = 13 then .ORANGE
  else if v = -1 then .UNKNOWN
  else .UNKNOWN

/-- InkLevel dataclass from status.py (ConsumableLevel plus a color). -/
structure InkLevel where
  level : Int
  status : ConsumableStatus
  color : InkColor
  deriving Repr, DecidableEq

/-- InkLevel.from_bytes from status.py: parse an ink entry from an ink level
field.  Indexing entry[1] and entry[2] raises IndexError on short entries,
modelled with Except. -/
def InkLevel.from_bytes (entry : List Nat) : Except String InkLevel := do
  let c ← match entry.get? 1 with
    | some c => pure c
    | none => throw "IndexError"
  let lv ← match entry.get? 2 with
    | some lv => pure lv
    | none => throw "IndexError"
  let color := InkColor.fromRaw c
  let consumableLevel := ConsumableLevel.from_int lv
  return ⟨consumableLevel.level, consumableLevel.status, color⟩

/-! ## Model of src/ez_reset/utils.py -/

/-- One TLV entry yielded by parse_status_struct: header byte, declared
parameter length, parameter data. -/
abbrev StatusEntry := Nat × Nat × List Nat

/-- Entry loop of parse_status_struct: starting at index, while index <
length read a header byte and a length byte (Python indexing raises on
out-of-range access, modelled as an error), slice the parameter data
(Python slices clamp at the end of the buffer) and advance.  The structural
fuel argument only bounds the loop; every iteration advances index by at
least 2, so the wrapper's fuel is never exhausted. -/
def statusEntries (data : List Nat) (length : Nat) :
    Nat → Nat → Except String (List StatusEntry)
  | 0, _ => .error "fuel exhausted"
  | fuel + 1, index =>
    if index < length then
      match data.get? index with
      | none => .error "IndexError"
      | some header =>
        match data.get? (index + 1) with
        | none => .error "IndexError"
        | some parameter_length =>
          match statusEntries data length fuel (index + 2 + parameter_length) with
          | .error e => .error e
          | .ok rest =>
            .ok ((header, parameter_length,
              (data.drop (index + 2)).take parameter_length) :: rest)
    else .ok []

/-- parse_status_struct from utils.py: check the declared length against the
buffer length, then iterate over the entries.  The Python generator is
modelled as producing the whole entry list. -/
def parse_status_struct (data : List Nat) : Except String (List StatusEntry) :=
  let length := fromBytesLE (data.take 2)
  if data.length ≠ length + 2 then .error "Status payload length invalid"
  else statusEntries data length (length + 1) 2

/-! ## Model of Status.from_bytes (status.py) -/

/-- Status dataclass from status.py. -/
structure Status where
  state : PrinterState
  error : PrinterError
  source : PaperPath
  levels : List InkLevel
  maintenance_box : ConsumableLevel
  serial : String
  other : List (Nat × List Nat)
  deriving Repr, DecidableEq

/-- Initial local values of Status.from_bytes before the entry loop runs. -/
def initStatus : Status :=
  ⟨.IDLE, .NONE, .UNKNOWN, [], ⟨-1, .UNKNOWN⟩, "", []⟩

/-- Python dict assignment other[k] = v: overwrite in place if the key is
present, append otherwise (insertion order preserved). -/
def dictSet (d : List (Nat × List Nat)) (k : Nat) (v : List Nat) :
    List (Nat × List Nat) :=
  match d with
  | [] => [(k, v)]
  | (k0, v0) :: rest =>
      if k0 = k then (k, v) :: rest else (k0, v0) :: dictSet rest k v

/-- Lowercase hexadecimal digit character. -/
def hexDigitChar (n : Nat) : Char :=
  if n < 10 then Char.ofNat (48 + n) else Char.ofNat (87 + n)

/-- Representation of one byte inside a Python bytes repr: backslash and
single quote are escaped, tab, newline and carriage return use their short
escapes, other printable ASCII stands for itself, everything else becomes a
hex escape. -/
def pyByteRepr (b : Nat) : List Char :=
  if b = 92 then [Char.ofNat 92, Char.ofNat 92]
  else if b = 39 then [Char.ofNat 92, Char.ofNat 39]
  else if b = 9 then [Char.ofNat 92, Char.ofNat 116]
  else if b = 10 then [Char.ofNat 92, Char.ofNat 110]
  else if b = 13 then [Char.ofNat 92, Char.ofNat 114]
  else if 32 ≤ b ∧ b ≤ 126 then [Char.ofNat b]
  else [Char.ofNat 92, Char.ofNat 120, hexDigitChar (b / 16), hexDigitChar (b % 16)]

/-- Models Python str(parameter_data) on a bytes value, which renders the
repr of the bytes object: the text between b-quote and closing quote.
CPython switches to double quotes when the bytes contain a single quote but
no double quote; this model always uses single quotes.  Nothing in the
development depends on the exact rendering. -/
def serialOfBytes (pdata : List Nat) : String :=
  ⟨Char.ofNat 98 :: Char.ofNat 39 :: ((pdata.map pyByteRepr).flatten ++ [Char.ofNat 39])⟩

/-- Ink level list comprehension of the 0x0F entry: windows of size s + 1
starting at offset 1 (range(1, len(parameter_data), entry_size) with
entry_size = s + 1); each window is parsed by InkLevel.from_bytes.  The
structural fuel argument only bounds the loop; every iteration advances i
by at least 1, so the caller's fuel is never exhausted. -/
def inkLevelsAux (pdata : List Nat) (s : Nat) :
    Nat → Nat → Except String (List InkLevel)
  | 0, _ => .error "fuel exhausted"
  | fuel + 1, i =>
    if i < pdata.length then
      match InkLevel.from_bytes ((pdata.drop i).take (s + 1)) with
      | .error e => .error e
      | .ok lv =>
        match inkLevelsAux pdata s fuel (i + s + 1) with
        | .error e => .error e
        | .ok rest => .ok (lv :: rest)
    else .ok []

/-- Handler of one TLV entry in the Status.from_bytes loop.  Python indexing
parameter_data[0] on an empty slice raises IndexError; range() with a zero
step raises ValueError; both are modelled as errors. -/
def statusStep (st : Status) (e : StatusEntry) : Except String Status :=
  if e.1 = 0x01 then
    match e.2.2.get? 0 with
    | none => .error "IndexError"
    | some b => .ok { st with state := PrinterState.fromRaw b }
  else if e.1 = 0x02 then
    match e.2.2.get? 0 with
    | none => .error "IndexError"
    | some b => .ok { st with error := PrinterError.fromRaw b }
  else if e.1 = 0x06 then
    match e.2.2.get? 0 with
    | none => .error "IndexError"
    | some b => .ok { st with source := PaperPath.fromRaw (3 - (b : Int)) }
  else if e.1 = 0x0D then
    match e.2.2.get? 0 with
    | none => .error "IndexError"
    | some b => .ok { st with maintenance_box := ConsumableLevel.from_int b }
  else if e.1 = 0x0F then
    match e.2.2.get? 0 with
    | none => .error "IndexError"
    | some entry_size =>
      if entry_size = 0 then .error "ValueError: range() arg 3 must not be zero"
      else
        match inkLevelsAux e.2.2 (entry_size - 1) (e.2.2.length + 1) 1 with
        | .error e2 => .error e2
        | .ok lvs => .ok { st with levels := lvs }
  else if e.1 = 0x40 then
    .ok { st with serial := serialOfBytes e.2.2 }
  else
    .ok { st with other := dictSet st.other e.1 e.2.2 }

/-- Status.from_bytes from status.py: run the TLV parser, then fold the
entry handler over the entries starting from the default field values. -/
def Status.from_bytes (data : List Nat) : Except String Status := do
  let entries ← parse_status_struct data
  entries.foldlM statusStep initStatus

/-- Headers of the entries of a status payload (empty when the TLV parse
fails); used to speak about which tags are present in a payload. -/
def payloadTags (data : List Nat) : List Nat :=
  match parse_status_struct data with
  | .ok es => es.map (·.1)
  | .error _ => []

/-! ## Model of src/ez_reset/printer.py -/

/-- Check of Except success, as a Bool. -/
def isOkE {α : Type} : Except String α → Bool
  | .ok _ => true
  | .error _ => false

/-- Python bytes(sequence): every element must lie in range(256), else
ValueError. -/
def bytesOf (l : List Nat) : Option (List Nat) :=
  if l.all (· ≤ 255) then some l else none

/-- Python value.to_bytes(2, "little"): OverflowError when the value does
not fit in two bytes. -/
def intToBytes2LE (v : Nat) : Option (List Nat) :=
  if v < 65536 then some (toBytesLE2 v) else none

/-- Action-code triple built inside Printer.send_factory_command:
bytes((action, action XOR 0xFF, ((action >> 1) & 0x7F) | ((action << 7) & 0x80))). -/
def action_code (action : Nat) : Option (List Nat) :=
  bytesOf [action, action ^^^ 0xFF, ((action >>> 1) &&& 0x7F) ||| ((action <<< 7) &&& 0x80)]

/-- Byte string sent by Printer.send_command: command opcode, u16
little-endian payload length, payload. -/
def send_command_bytes (command : List Nat) (payload : List Nat) : Option (List Nat) := do
  let lenb ← intToBytes2LE payload.length
  return command ++ lenb ++ payload

/-- Byte string sent by Printer.send_factory_command: opcode "||" (0x7C
0x7C), length, then model bytes, action code and extra payload. -/
def send_factory_command_bytes (model : List Nat) (action : Nat) (payload : List Nat) :
    Option (List Nat) := do
  let ac ← action_code action
  send_command_bytes [0x7C, 0x7C] (model ++ ac ++ payload)

/-- Device profile fields used by the printer facade: model bytes, key
bytes, and the reset map in iteration order. -/
structure Device where
  model : List Nat
  key : List Nat
  reset : List (Nat × Nat)
  deriving Repr, DecidableEq

/-- Control backend as seen by the facade: an oracle giving the response to
the n-th send, a call counter, and the log of commands sent so far. -/
structure Ctl where
  responses : Nat → Except String (List Nat)
  count : Nat
  log : List (List Nat)

/-- ControlBackend.send: the command goes on the wire (appended to the
log) and the next oracle response is returned. -/
def ctlSend (c : Ctl) (cmd : List Nat) : Ctl × Except String (List Nat) :=
  (⟨c.responses, c.count + 1, c.log ++ [cmd]⟩, c.responses c.count)

/-- Printer.send_command over a control backend.  When to_bytes raises
before anything is sent, no command reaches the wire. -/
def Printer.send_command (c : Ctl) (command payload : List Nat) :
    Ctl × Except String (List Nat) :=
  match send_command_bytes command payload with
  | none => (c, .error "OverflowError")
  | some cmd => ctlSend c cmd

/-- Printer.send_factory_command over a control backend. -/
def Printer.send_factory_command (dev : Device) (c : Ctl) (action : Nat)
    (payload : List Nat) : Ctl × Except String (List Nat) :=
  match action_code action with
  | none => (c, .error "ValueError")
  | some ac => Printer.send_command c [0x7C, 0x7C] (dev.model ++ ac ++ payload)

/-- Printer.write_eeprom: factory action 0x42 with payload address (u16
little-endian), value byte and the device key. -/
def Printer.write_eeprom (dev : Device) (c : Ctl) (address value : Nat) :
    Ctl × Except String (List Nat) :=
  if address < 65536 ∧ value < 256 then
    Printer.send_factory_command dev c 0x42 (toBytesLE2 address ++ [value] ++ dev.key)
  else (c, .error "OverflowError")

/-- Loop body of Printer.reset_waste: issue the writes in order; a raised
error stops the loop and propagates. -/
def resetWasteAux (dev : Device) (c : Ctl) : List (Nat × Nat) → Ctl × Except String Unit
  | [] => (c, .ok ())
  | (addr, value) :: rest =>
    match Printer.write_eeprom dev c addr value with
    | (c2, .error e) => (c2, .error e)
    | (c2, .ok _) => resetWasteAux dev c2 rest

/-- Printer.reset_waste: one write_eeprom per pair of the profile's reset
map, sequentially. -/
def Printer.reset_waste (dev : Device) (c : Ctl) : Ctl × Except String Unit :=
  resetWasteAux dev c dev.reset

/-- Wire bytes of the factory command issued by write_eeprom for one
(address, value) pair. -/
def writeEepromCmd (dev : Device) (av : Nat × Nat) : List Nat :=
  [0x7C, 0x7C] ++ toBytesLE2 (dev.model.length + 3 + (2 + 1 + dev.key.length))
    ++ dev.model ++ [0x42, 0xBD, 0x21] ++ (toBytesLE2 av.1 ++ [av.2] ++ dev.key)

/-- Conditions under which the Python byte builders in write_eeprom cannot
raise: addresses fit u16, values fit u8, and the framed command length fits
the u16 length field. -/
def devWf (dev : Device) : Prop :=
  (∀ av ∈ dev.reset, av.1 < 65536 ∧ av.2 < 256) ∧
    dev.model.length + 3 + (2 + 1 + dev.key.length) < 65536

/-! ## Model of src/ez_reset/d4.py

The transport is modelled at packet granularity: the peer's future inbound
packets sit, in order, in an inbound list (transport.read blocks on an
exhausted list, modelled as Option none), and packets written to the
transport are appended to a sent list.  The state carries three further
ghost observers that no operation reads: rxLog (inbound packets
demultiplexed into a known channel), grantLog (CreditRequest grants) and
wfOk (true as long as every inbound data-channel packet arrived while that
channel had advertised credit).  A returned none models any Python
exception or a read that blocks forever. -/

/-- D4Packet dataclass from d4.py.  The credit field is an Int because the
channel write path computes it by subtraction; struct.pack range checks
happen in writePacket. -/
structure D4Packet where
  psid : Nat
  ssid : Nat
  credit : Int
  control : Nat
  payload : List Nat
  deriving Repr, DecidableEq

/-- D4Channel attributes from d4.py. -/
structure D4Channel where
  ssid : Nat
  psid : Option Nat
  mtu : Option Nat
  tx_credits : Int
  rx_credits : Int
  rx_credits_max : Nat
  rx_queue : List D4Packet
  deriving Repr, DecidableEq

/-- D4 engine state: the psid-to-channel table, the transport (pending
inbound packets and the log of written packets) and the ghost observers. -/
structure D4State where
  open_channels : Nat → Option D4Channel
  inbound : List D4Packet
  sent : List D4Packet
  rxLog : List D4Packet
  grantLog : List (Nat × Nat)
  wfOk : Bool

/-- Pointwise update of the channel table at one psid. -/
def chUpd (f : Nat → Option D4Channel) (p : Nat) (ch : D4Channel) :
    Nat → Option D4Channel :=
  fun q => if q = p then some ch else f q

/-- D4.write_packet: struct.pack the header (raising on out-of-range
fields), write header plus payload to the transport, and decrement the
sending channel's tx_credits.  The channel is identified by its key in the
table. -/
def writePacket (s : D4State) (p : Nat) (pkt : D4Packet) : Option D4State :=
  if pkt.psid ≤ 255 ∧ pkt.ssid ≤ 255 ∧ 6 + pkt.payload.length ≤ 65535 ∧
      0 ≤ pkt.credit ∧ pkt.credit ≤ 255 ∧ pkt.control ≤ 255 then
    match s.open_channels p with
    | none => none
    | some ch =>
      some { s with
        open_channels := chUpd s.open_channels p
          { ch with tx_credits := ch.tx_credits - 1 },
        sent := s.sent ++ [pkt] }
  else none

/-- D4.read_next_packet: consume the next inbound packet; unknown psid is
logged and discarded, otherwise the target channel gains the packet's
credit on tx_credits, loses one rx_credit, and queues the packet.  The
ghost wfOk records whether a data-channel delivery consumed an advertised
credit. -/
def readNextPacket (s : D4State) : Option D4State :=
  match s.inbound with
  | [] => none
  | pkt :: rest =>
    match s.open_channels pkt.psid with
    | none => some { s with inbound := rest }
    | some ch =>
      some { s with
        inbound := rest,
        open_channels := chUpd s.open_channels pkt.psid
          { ch with
            tx_credits := ch.tx_credits + pkt.credit,
            rx_credits := ch.rx_credits - 1,
            rx_queue := ch.rx_queue ++ [pkt] },
        rxLog := s.rxLog ++ [pkt],
        wfOk := s.wfOk && (pkt.psid == 0 || decide (1 ≤ ch.rx_credits)) }

/-- Loop body of D4.read_packet: drive read_next_packet until the requested
channel's queue is non-empty, then pop the head.  Fuel bounds the loop; the
wrapper supplies enough fuel to consume the whole inbound list. -/
def readPacketAux (fuel : Nat) (s : D4State) (p : Nat) :
    Option (D4State × D4Packet) :=
  match fuel with
  | 0 => none
  | fuel + 1 =>
    match s.open_channels p with
    | none => none
    | some ch =>
      match ch.rx_queue with
      | pkt :: rest =>
        some ({ s with
          open_channels := chUpd s.open_channels p
            ({ ch with rx_queue := rest }) }, pkt)
      | [] =>
        match readNextPacket s with
        | none => none
        | some s2 => readPacketAux fuel s2 p

/-- D4.read_packet on the channel stored at key p. -/
def readPacket (s : D4State) (p : Nat) : Option (D4State × D4Packet) :=
  readPacketAux (s.inbound.length + 1) s p

/-- D4.command: check channel-0 credit (assert tx_credits is truthy, for
every opcode except Init and Exit), send one packet on channel 0 with
credit 1 and control 0, read the reply from channel 0, and validate the
two-byte reply prefix.  A first byte of 0x7F is the error path: it is
logged and then the prefix assertion fails.  Returns the reply payload
beyond the prefix. -/
def commandOp (s : D4State) (cmd : Nat) (payload : List Nat) :
    Option (D4State × List Nat) :=
  match s.open_channels 0 with
  | none => none
  | some ch0 =>
    if cmd ≠ 0 ∧ cmd ≠ 8 ∧ ch0.tx_credits = 0 then none
    else
      match writePacket s 0 ⟨0, 0, 1, 0, cmd :: payload⟩ with
      | none => none
      | some s1 =>
        match readPacket s1 0 with
        | none => none
        | some (s2, res) =>
          if res.psid ≠ 0 then none
          else
            match res.payload with
            | [] => none
            | b0 :: brest =>
              if b0 = 0x7F then none
              else if b0 ≠ (cmd ||| 0x80) then none
              else
                match brest with
                | [] => none
                | b1 :: brest2 =>
                  if b1 ≠ 0 then none else some (s2, brest2)

/-- D4.Init: send opcode 0 with payload 0x10 and assert the reply payload
equals 0x10. -/
def InitOp (s : D4State) : Option D4State :=
  match commandOp s 0 [0x10] with
  | none => none
  | some (s2, resp) => if resp = [0x10] then some s2 else none

/-- D4.GetSocketID: send the socket name, return the first reply byte. -/
def GetSocketIDOp (s : D4State) (name : List Nat) : Option (D4State × Nat) :=
  match commandOp s 9 name with
  | none => none
  | some (s2, resp) =>
    match resp with
    | [] => none
    | b :: _ => some (s2, b)

/-- D4.OpenChannel on a fresh channel object: request psid = channel.ssid,
unpack the 8-byte reply, assert the replied ssid, store psid, mtu and the
granted tx_credits on the channel and insert it into the table at the
replied psid. -/
def OpenChannelOp (s : D4State) (ch : D4Channel) : Option (D4State × D4Channel) :=
  if ch.ssid ≤ 255 then
    match commandOp s 1 ([ch.ssid, ch.ssid] ++ toBytesBE2 0xFFFF ++
        toBytesBE2 0xFFFF ++ toBytesBE2 0 ++ toBytesBE2 0) with
    | none => none
    | some (s2, res) =>
      match res with
      | [rpsid, rssid, m1, m2, _x1, _x2, cr1, cr2] =>
        if rssid = ch.ssid then
          let ch2 := { ch with
            psid := some rpsid,
            mtu := some (fromBytesBE2 m1 m2),
            tx_credits := (fromBytesBE2 cr1 cr2 : Int) }
          some ({ s2 with open_channels := chUpd s2.open_channels rpsid ch2 }, ch2)
        else none
      | _ => none
  else none

/-- D4.CloseChannel on the channel stored at key p: send opcode 2, then
delete the table entry at the channel's psid. -/
def CloseChannelOp (s : D4State) (p : Nat) : Option D4State :=
  match s.open_channels p with
  | none => none
  | some ch =>
    match ch.psid with
    | none => none
    | some cp =>
      if cp ≤ 255 ∧ ch.ssid ≤ 255 then
        match commandOp s 2 [cp, ch.ssid] with
        | none => none
        | some (s2, _res) =>
          match s2.open_channels cp with
          | none => none
          | some _ =>
            some { s2 with
              open_channels := fun q => if q = cp then none else s2.open_channels q }
      else none

/-- D4.Credit on the channel stored at key p: send opcode 3 with the
amount as a u16 (struct.pack raising outside u16 range). -/
def CreditOp (s : D4State) (p : Nat) (amount : Int) : Option D4State :=
  match s.open_channels p with
  | none => none
  | some ch =>
    match ch.psid with
    | none => none
    | some cp =>
      if cp ≤ 255 ∧ ch.ssid ≤ 255 ∧ 0 ≤ amount ∧ amount ≤ 65535 then
        match commandOp s 3 ([cp, ch.ssid] ++ toBytesBE2 amount.toNat) with
        | none => none
        | some (s2, _res) => some s2
      else none

/-- D4.CreditRequest on the channel stored at key p, with the default
amount 0xFFFF: unpack the 4-byte reply, add the granted amount to the
tx_credits of the table entry at the channel's psid, and return the
grant. -/
def CreditRequestOp (s : D4State) (p : Nat) : Option (D4State × Nat) :=
  match s.open_channels p with
  | none => none
  | some ch =>
    match ch.psid with
    | none => none
    | some cp =>
      if cp ≤ 255 ∧ ch.ssid ≤ 255 then
        match commandOp s 4 ([cp, ch.ssid] ++ toBytesBE2 0xFFFF) with
        | none => none
        | some (s2, res) =>
          match res with
          | [_r1, _r2, a1, a2] =>
            let amount := fromBytesBE2 a1 a2
            match s2.open_channels cp with
            | none => none
            | some ch2 =>
              some ({ s2 with
                open_channels := chUpd s2.open_channels cp
                  { ch2 with tx_credits := ch2.tx_credits + amount },
                grantLog := s2.grantLog ++ [(cp, amount)] }, amount)
          | _ => none
      else none

/-- Loop of D4Channel._ensure_credit: keep issuing CreditRequest until a
call returns a positive grant (the 100 ms sleep has no state effect). -/
def ensureCreditAux (fuel : Nat) (s : D4State) (p : Nat) : Option D4State :=
  match fuel with
  | 0 => none
  | fuel + 1 =>
    match CreditRequestOp s p with
    | none => none
    | some (s2, amount) =>
      if amount < 1 then ensureCreditAux fuel s2 p else some s2

/-- D4Channel._ensure_credit: if tx_credits < 1, loop on CreditRequest.
Each CreditRequest consumes at least one pending packet, so the supplied
fuel suffices; running out of packets models blocking forever. -/
def ensureCredit (s : D4State) (p : Nat) : Option D4State :=
  match s.open_channels p with
  | none => none
  | some ch =>
    if ch.tx_credits < 1 then
      let q0len := match s.open_channels 0 with
        | some c0 => c0.rx_queue.length
        | none => 0
      ensureCreditAux (q0len + s.inbound.length + 1) s p
    else some s

/-- Fragment sliced off the front of the remaining data by one iteration of
D4Channel.write: data[:mtu - 6] when the data is longer than mtu - 6, all
of it otherwise. -/
def fragPayload (mtu : Nat) (data : List Nat) : List Nat :=
  if data.length > mtu - 6 then data.take (mtu - 6) else data

/-- Piggyback credit computed by one iteration of D4Channel.write:
min(rx_credits_max - rx_credits, 0xFF). -/
def fragCredit (ch : D4Channel) : Int :=
  min ((ch.rx_credits_max : Int) - ch.rx_credits) 0xFF

/-- State after one iteration of D4Channel.write has added the piggyback
credit to rx_credits (before _ensure_credit and write_packet run). -/
def writeFragState (s : D4State) (p : Nat) (ch : D4Channel) : D4State :=
  { s with
    open_channels := chUpd s.open_channels p
      ({ ch with rx_credits := ch.rx_credits + fragCredit ch }) }

/-- Loop of D4Channel.write: while data remains, slice a fragment of size
mtu - 6 (all of it when no longer than that), set control = 2, compute the
piggyback credit min(rx_credits_max - rx_credits, 0xFF), add it to
rx_credits, ensure a transmit credit, and emit the packet.  The fragment
size uses truncated Nat subtraction; for mtu < 6 the Python negative-slice
arithmetic differs in which bytes the doomed fragments carry, but both
sides end in a never-terminating loop, i.e. none. -/
def writeLoop (fuel : Nat) (s : D4State) (p : Nat) (data : List Nat) :
    Option D4State :=
  match fuel with
  | 0 => none
  | fuel + 1 =>
    match data with
    | [] => some s
    | _ =>
      match s.open_channels p with
      | none => none
      | some ch =>
        match ch.mtu with
        | none => none
        | some mtu =>
          match ch.psid with
          | none => none
          | some cp =>
            match ensureCredit (writeFragState s p ch) p with
            | none => none
            | some s3 =>
              match writePacket s3 p
                  ⟨cp, ch.ssid, fragCredit ch, 2, fragPayload mtu data⟩ with
              | none => none
              | some s4 => writeLoop fuel s4 p (data.drop (fragPayload mtu data).length)

/-- D4Channel.write on the channel stored at key p.  Every loop iteration
removes at least one byte of data (or diverges), so data.length + 1 fuel
suffices. -/
def chanWrite (s : D4State) (p : Nat) (data : List Nat) : Option D4State :=
  writeLoop (data.length + 1) s p data

/-- State after D4Channel.read has recorded a replenishing Credit grant of
the given amount on rx_credits. -/
def readBumpState (s2 : D4State) (p : Nat) (ch2 : D4Channel) (credit : Int) :
    D4State :=
  { s2 with
    open_channels := chUpd s2.open_channels p
      ({ ch2 with rx_credits := ch2.rx_credits + credit }) }

/-- D4Channel.read on the channel stored at key p: when the advertised
credit lags rx_credits_max by more than 0xFF, replenish through a Credit
command, then return the next queued packet. -/
def chanRead (s : D4State) (p : Nat) : Option (D4State × D4Packet) :=
  match s.open_channels p with
  | none => none
  | some ch =>
    if ((ch.rx_credits_max : Int) - ch.rx_credits) > 0xFF then
      match CreditOp s p ((ch.rx_credits_max : Int) - ch.rx_credits) with
      | none => none
      | some s2 =>
        match s2.open_channels p with
        | none => none
        | some ch2 =>
          readPacket
            (readBumpState s2 p ch2 ((ch.rx_credits_max : Int) - ch.rx_credits)) p
    else readPacket s p

/-- D4.channel(name) followed by D4Channel.__enter__: resolve the socket id,
build a fresh channel, OpenChannel it, grant rx_credits_max credits to the
peer and record them on rx_credits.  Returns the table key of the opened
channel. -/
def chanEnter (s : D4State) (name : List Nat) : Option (D4State × Nat) :=
  match GetSocketIDOp s name with
  | none => none
  | some (s1, ssid) =>
    match OpenChannelOp s1 ⟨ssid, none, none, 0, 0, 1, []⟩ with
    | none => none
    | some (s2, ch2) =>
      match ch2.psid with
      | none => none
      | some cp =>
        match CreditOp s2 cp (ch2.rx_credits_max : Int) with
        | none => none
        | some s3 =>
          match s3.open_channels cp with
          | none => none
          | some ch3 =>
            some (readBumpState s3 cp ch3 ch3.rx_credits_max, cp)

/-- D4.__init__ given the peer's pending packets: install channel 0 with
tx_credits = 1, then (after the byte-level drain, mode-escape write and
8-byte read, none of which touch the engine state) run Init. -/
def D4.mk (inbound : List D4Packet) : Option D4State :=
  InitOp
    { open_channels := fun q =>
        if q = 0 then some ⟨0, none, none, 1, 0, 1, []⟩ else none,
      inbound := inbound, sent := [], rxLog := [], grantLog := [], wfOk := true }

/-- Client-visible operations on a constructed engine: channel open via
socket name, channel close, channel write, channel read, and the Credit
and CreditRequest commands. -/
inductive D4Op where
  | enter (name : List Nat)
  | close (p : Nat)
  | write (p : Nat) (data : List Nat)
  | read (p : Nat)
  | credit (p : Nat) (amount : Int)
  | creditRequest (p : Nat)
  deriving Repr, DecidableEq

/-- Execute one operation (discarding returned values). -/
def execOp (s : D4State) : D4Op → Option D4State
  | .enter name => (chanEnter s name).map (·.1)
  | .close p => CloseChannelOp s p
  | .write p data => chanWrite s p data
  | .read p => (chanRead s p).map (·.1)
  | .credit p amount => CreditOp s p amount
  | .creditRequest p => (CreditRequestOp s p).map (·.1)

/-- Execute a sequence of operations. -/
def execTrace (s : D4State) : List D4Op → Option D4State
  | [] => some s
  | op :: ops =>
    match execOp s op with
    | none => none
    | some s2 => execTrace s2 ops

/-- Construct an engine over the given inbound packets and run a trace. -/
def mkAndRun (inbound : List D4Packet) (ops : List D4Op) : Option D4State :=
  match D4.mk inbound with
  | none => none
  | some s0 => execTrace s0 ops

/-- Well-formed wire packet, as the specification defines the header:
byte-sized psid, ssid, credit and control, a payload that fits the u16
total length (which includes the 6 header bytes), and payload bytes. -/
def wfPacket (pkt : D4Packet) : Prop :=
  pkt.psid ≤ 255 ∧ pkt.ssid ≤ 255 ∧ 0 ≤ pkt.credit ∧ pkt.credit ≤ 255 ∧
    pkt.control ≤ 255 ∧ pkt.payload.length ≤ 65529 ∧ ∀ b ∈ pkt.payload, b ≤ 255

instance (pkt : D4Packet) : Decidable (wfPacket pkt) := by
  unfold wfPacket; infer_instance

/-- Credit-counter bounds claimed by the specification: tx_credits is
non-negative for every channel in the table, and rx_credits lies between 0
and rx_credits_max for every channel other than the control channel 0. -/
def creditInv (s : D4State) : Prop :=
  ∀ p ch, s.open_channels p = some ch →
    0 ≤ ch.tx_credits ∧ (p ≠ 0 → 0 ≤ ch.rx_credits ∧ ch.rx_credits ≤ ch.rx_credits_max)

/-- Every channel sits in the table at its own psid (the control channel's
psid field is unset). -/
def chanAligned (s : D4State) : Prop :=
  ∀ p ch, s.open_channels p = some ch → ch.psid = some p ∨ ch.psid = none

/-- Inductive invariant threaded through the execution: under a
credit-respecting exchange the counters are bounded and channels are
aligned, and pending inbound packets carry non-negative credit fields. -/
def Good (s : D4State) : Prop :=
  (s.wfOk = true → creditInv s ∧ chanAligned s) ∧
    ∀ pkt ∈ s.inbound, 0 ≤ pkt.credit

/-- Number of packets written to the transport for channel c. -/
def sentOn (c : Nat) (s : D4State) : Int :=
  ((s.sent.filter (fun pkt => pkt.psid = c)).length : Int)

/-- Sum of credit fields of inbound packets demultiplexed into channel c. -/
def recvCreditsOn (c : Nat) (s : D4State) : Int :=
  ((s.rxLog.filter (fun pkt => pkt.psid = c)).map (·.credit)).sum

/-- Sum of CreditRequest grants credited to channel c. -/
def grantsOn (c : Nat) (s : D4State) : Int :=
  (((s.grantLog.filter (fun g => g.1 = c)).map (·.2)).sum : Int)

/-- tx_credits of the channel at key c, 0 when absent. -/
def chTx (s : D4State) (c : Nat) : Int :=
  match s.open_channels c with
  | some ch => ch.tx_credits
  | none => 0

/-- Conserved ledger of channel c: tx_credits minus everything received
plus everything sent. -/
def ledger (c : Nat) (s : D4State) : Int :=
  chTx s c - recvCreditsOn c s + sentOn c s - grantsOn c s

/-- Operations that the credit-conservation claim ranges over: writes and
reads on one fixed channel. -/
def isWriteOrRead (c : Nat) : D4Op → Prop
  | .write p _ => p = c
  | .read p => p = c
  | _ => False

/-- Field-level relation between two states of one engine step: every
channel survives with the same identity fields and rx_credits_max, and
rx_credits not increased (tx_credits and the queue may change). -/
def entryPres (s s2 : D4State) : Prop :=
  ∀ p ch, s.open_channels p = some ch →
    ∃ ch2, s2.open_channels p = some ch2 ∧
      ch2.rx_credits ≤ ch.rx_credits ∧
      ch2.rx_credits_max = ch.rx_credits_max ∧
      ch2.psid = ch.psid ∧ ch2.ssid = ch.ssid ∧ ch2.mtu = ch.mtu

/-- Facts established for each primitive engine step: preservation of the
inductive invariant, monotonicity of the well-formedness flag, field-level
entry preservation, and conservation of the per-channel credit ledger
under channel alignment. -/
def stepFacts (s s2 : D4State) : Prop :=
  (Good s → Good s2) ∧ (s2.wfOk = true → s.wfOk = true) ∧ entryPres s s2 ∧
    (chanAligned s → chanAligned s2 ∧ ∀ q, ledger q s2 = ledger q s)

/-- Facts established for the channel write and read operations (which may
raise advertised credits, so field-level entry preservation does not
apply). -/
def opFacts (s s2 : D4State) : Prop :=
  (Good s → Good s2) ∧ (s2.wfOk = true → s.wfOk = true) ∧
    (chanAligned s → chanAligned s2 ∧ ∀ q, ledger q s2 = ledger q s)

/-- Facts established for every client-visible operation (channel open and
close renegotiate or drop credit state, so only the invariant and
well-formedness monotonicity remain). -/
def invFacts (s s2 : D4State) : Prop :=
  (Good s → Good s2) ∧ (s2.wfOk = true → s.wfOk = true)

/-! ## Concrete scenarios used by counterexamples and witnesses -/

/-- Peer reply packet completing the Init handshake: channel 0, credit 1,
payload opcode-ack 0x80, status 0, echo 0x10. -/
def initReplyPkt : D4Packet := ⟨0, 0, 1, 0, [0x80, 0, 0x10]⟩

/-- Peer reply packet answering a CreditRequest for channel 5 with a grant
of 5 credits: payload opcode-ack 0x84, status 0, psid 5, ssid 5, amount
0x0005. -/
def grantReplyPkt : D4Packet := ⟨0, 0, 1, 0, [0x84, 0, 5, 5, 0, 5]⟩

/-- Engine state with the control channel and an opened data channel at
psid 5 (mtu 20, one advertised rx credit, no transmit credit) and a
pending CreditRequest grant from the peer. -/
def grantScenario : D4State :=
  { open_channels := fun q =>
      if q = 0 then some ⟨0, none, none, 1, 0, 1, []⟩
      else if q = 5 then some ⟨5, some 5, some 20, 0, 1, 1, []⟩ else none,
    inbound := [grantReplyPkt], sent := [], rxLog := [], grantLog := [],
    wfOk := true }

/-- Engine state with the control channel and an opened data channel at
psid 5 (mtu 20, three transmit credits) and a quiet peer. -/
def quietScenario : D4State :=
  { open_channels := fun q =>
      if q = 0 then some ⟨0, none, none, 1, 0, 1, []⟩
      else if q = 5 then some ⟨5, some 5, some 20, 3, 1, 1, []⟩ else none,
    inbound := [], sent := [], rxLog := [], grantLog := [], wfOk := true }

/-- Fallback engine state for Option projections in closed statements. -/
def emptyD4State : D4State :=
  { open_channels := fun _ => none, inbound := [], sent := [], rxLog := [],
    grantLog := [], wfOk := false }

/-- State reached by constructing an engine against the single Init reply
(used in closed statements about the construction run). -/
def initRun : D4State := (D4.mk [initReplyPkt]).getD emptyD4State

/-- State reached from grantScenario by one channel write of one byte
(used in closed statements about the credit ledger). -/
def grantWriteRun : D4State :=
  (execTrace grantScenario [D4Op.write 5 [9]]).getD emptyD4State

/-- Per-packet piggyback credit law of the channel write path: each emitted
packet carries credit min(rx_credits_max - rx_credits, 0xFF) computed
against the running rx_credits, which grows by that credit. -/
def creditsFrom (max : Nat) : Int → List D4Packet → Prop
  | _, [] => True
  | rx, pkt :: rest =>
      pkt.credit = min ((max : Int) - rx) 0xFF ∧
        creditsFrom max (rx + pkt.credit) rest

/-- Consecutive chunks of size k + 1 of a list (the last possibly
shorter); the structural fuel argument of the worker is never exhausted
when it starts at the list length. -/
def chunksOf1Aux (k : Nat) : Nat → List Nat → List (List Nat)
  | _, [] => []
  | 0, _ => []
  | fuel + 1, a :: l => (a :: l).take (k + 1) :: chunksOf1Aux k fuel ((a :: l).drop (k + 1))

/-- Consecutive chunks of size k + 1 of a list (the last possibly
shorter). -/
def chunksOf1 (k : Nat) (l : List Nat) : List (List Nat) :=
  chunksOf1Aux k l.length l

end EzReset

open EzReset

/-! ## Claim C6: the ConsumableLevel.from_int mapping -/

/-- C6: ConsumableLevel.from_int maps 110 to (-1, MISSING), 105 to
(-1, UNKNOWN), every other value below 0 or above 100 to (-1, FAIL), 0 to
(0, EMPTY), and every remaining value 1..100 to (v, OKAY). -/
theorem consumable_from_int_spec : ∀ v : Int,
    (v = 110 → ConsumableLevel.from_int v = ⟨-1, .MISSING⟩) ∧
    (v = 105 → ConsumableLevel.from_int v = ⟨-1, .UNKNOWN⟩) ∧
    (v ≠ 110 → v ≠ 105 → (v < 0 ∨ 100 < v) →
      ConsumableLevel.from_int v = ⟨-1, .FAIL⟩) ∧
    (v = 0 → ConsumableLevel.from_int v = ⟨0, .EMPTY⟩) ∧
    (1 ≤ v → v ≤ 100 → ConsumableLevel.from_int v = ⟨v, .OKAY⟩) := by
  intro v
  refine ⟨fun h => ?_, fun h => ?_, fun h1 h2 h3 => ?_, fun h => ?_, fun h1 h2 => ?_⟩ <;>
    simp only [ConsumableLevel.from_int] <;> split_ifs <;>
    first
      | rfl
      | omega
      | (exfalso; omega)
      | simp_all

/-- C6 witness: the mapping evaluated at 110, 50, 200 and 0. -/
theorem consumable_from_int_witness :
    ConsumableLevel.from_int 110 = ⟨-1, .MISSING⟩ ∧
    ConsumableLevel.from_int 50 = ⟨50, .OKAY⟩ ∧
    ConsumableLevel.from_int 200 = ⟨-1, .FAIL⟩ ∧
    ConsumableLevel.from_int 0 = ⟨0, .EMPTY⟩ :=
  ⟨(consumable_from_int_spec 110).1 rfl,
   (consumable_from_int_spec 50).2.2.2.2 (by decide) (by decide),
   (consumable_from_int_spec 200).2.2.1 (by decide) (by decide) (by decide),
   (consumable_from_int_spec 0).2.2.2.1 rfl⟩

/-! ## Claim C5: the factory command action-code triple -/

/-- C5: for every action byte a and every model and payload whose framed
command fits the u16 length field, the factory command built by the facade
is the "||" opcode, the little-endian length, the model bytes, the triple
(a, a XOR 0xFF, ((a >> 1) AND 0x7F) OR ((a << 7) AND 0x80)) and the
payload; in particular action 0x41 yields second and third bytes 0xBE and
0xA0, and action 0x42 yields 0xBD and 0x21. -/
theorem factory_action_code_spec :
    (∀ (a : Nat) (model payload : List Nat), a ≤ 255 →
      model.length + 3 + payload.length < 65536 →
      send_factory_command_bytes model a payload =
        some ([0x7C, 0x7C] ++ toBytesLE2 (model.length + 3 + payload.length) ++
          model ++ [a, a ^^^ 0xFF, ((a >>> 1) &&& 0x7F) ||| ((a <<< 7) &&& 0x80)] ++
          payload)) ∧
    action_code 0x41 = some [0x41, 0xBE, 0xA0] ∧
    action_code 0x42 = some [0x42, 0xBD, 0x21] := by
  refine ⟨fun a model payload ha hlen => ?_, by decide, by decide⟩
  have hxor : a ^^^ 0xFF ≤ 255 := by
    have : a ^^^ 0xFF < 2 ^ 8 := Nat.xor_lt_two_pow (by omega) (by omega)
    omega
  have hrot : ((a >>> 1) &&& 0x7F) ||| ((a <<< 7) &&& 0x80) ≤ 255 := by
    have h1 : (a >>> 1) &&& 0x7F < 2 ^ 8 :=
      Nat.lt_of_le_of_lt (Nat.and_le_right) (by omega)
    have h2 : (a <<< 7) &&& 0x80 < 2 ^ 8 :=
      Nat.lt_of_le_of_lt (Nat.and_le_right) (by omega)
    have : ((a >>> 1) &&& 0x7F) ||| ((a <<< 7) &&& 0x80) < 2 ^ 8 :=
      Nat.or_lt_two_pow h1 h2
    omega
  have hac : action_code a =
      some [a, a ^^^ 0xFF, ((a >>> 1) &&& 0x7F) ||| ((a <<< 7) &&& 0x80)] := by
    simp [action_code, bytesOf, ha, hxor, hrot]
  simp only [send_factory_command_bytes, hac, Option.bind_eq_bind,
    Option.some_bind, send_command_bytes, intToBytes2LE]
  have hl : (model ++ [a, a ^^^ 0xFF,
      ((a >>> 1) &&& 0x7F) ||| ((a <<< 7) &&& 0x80)] ++ payload).length =
      model.length + 3 + payload.length := by
    simp [List.length_append]
    omega
  rw [hl]
  simp [hlen, List.append_assoc]

/-- C5 witness: the factory command built for actions 0x41 and 0x42 with an
empty model and payload. -/
theorem factory_action_code_witness :
    send_factory_command_bytes [] 0x41 [] =
      some [0x7C, 0x7C, 3, 0, 0x41, 0xBE, 0xA0] ∧
    send_factory_command_bytes [] 0x42 [] =
      some [0x7C, 0x7C, 3, 0, 0x42, 0xBD, 0x21] :=
  ⟨(factory_action_code_spec.1 0x41 [] [] (by decide) (by decide)).trans (by decide),
   (factory_action_code_spec.1 0x42 [] [] (by decide) (by decide)).trans (by decide)⟩

/-! ## Claim C2: writing a zero-length payload -/

/-- C2 counterexample: on an opened channel (psid 5, mtu 20, transmit
credits available), write with an empty payload returns at once with the
engine state unchanged and nothing written to the transport, so no packet
with control = 2 is produced. -/
theorem write_empty_payload_counterexample :
    chanWrite quietScenario 5 [] = some quietScenario ∧
      quietScenario.sent = [] :=
  ⟨rfl, rfl⟩

/-- C2 amended: a write with a zero-length payload emits no packet at all;
the while loop exits immediately and the engine state, including the log of
packets written to the transport, is unchanged.  (Control = 2 is set on
every packet emitted for a non-empty payload.) -/
theorem write_empty_payload_amended :
    ∀ (s : D4State) (p : Nat), chanWrite s p [] = some s :=
  fun _ _ => rfl

/-! ## Claims C7 and C10: the status TLV decoder -/

/-- Totality of the entry loop when the outer length check has passed: the
loop never fails, and every yielded entry's parameter data is no longer
than its declared parameter length. -/
theorem statusEntries_total (data : List Nat) (len : Nat)
    (h : data.length = len + 2) :
    ∀ fuel index, len - index < fuel →
      ∃ l, statusEntries data len fuel index = .ok l ∧
        ∀ e ∈ l, (e.2.2).length ≤ e.2.1 := by
  intro fuel
  induction fuel with
  | zero =>
    intro index hle
    omega
  | succ fuel ih =>
    intro index hle
    unfold statusEntries
    by_cases hidx : index < len
    · cases hg : data.get? index with
      | none =>
        exfalso
        have := List.get?_eq_none.mp hg
        omega
      | some header =>
        cases hg2 : data.get? (index + 1) with
        | none =>
          exfalso
          have := List.get?_eq_none.mp hg2
          omega
        | some plen =>
          obtain ⟨l, hl, hp⟩ := ih (index + 2 + plen) (by omega)
          refine ⟨(header, plen, (data.drop (index + 2)).take plen) :: l, ?_, ?_⟩
          · simp [hidx, hg, hg2, hl]
          · intro e he
            rcases List.mem_cons.mp he with rfl | he2
            · simp
            · exact hp e he2
    · simp [hidx]

/-- C7: the status TLV decoder fails if and only if the buffer length
differs from the little-endian u16 stored in the first two bytes plus 2;
when they agree decoding yields the entry list without error. -/
theorem status_length_check_iff : ∀ data : List Nat,
    isOkE (parse_status_struct data) = false ↔
      data.length ≠ fromBytesLE (data.take 2) + 2 := by
  intro data
  unfold parse_status_struct
  by_cases h : data.length = fromBytesLE (data.take 2) + 2
  · obtain ⟨l, hl, _⟩ := statusEntries_total data (fromBytesLE (data.take 2)) h
      (fromBytesLE (data.take 2) + 1) 2 (by omega)
    simp [h, hl, isOkE]
  · simp [h, isOkE]

/-- C10: for every input passing the outer length check, the decoder is
total over the entries: it returns the entry list without raising, and
every entry's parameter data is clamped to the remaining buffer, hence no
longer than its declared parameter length. -/
theorem status_entries_total_spec : ∀ data : List Nat,
    data.length = fromBytesLE (data.take 2) + 2 →
    ∃ l, parse_status_struct data = .ok l ∧
      ∀ e ∈ l, (e.2.2).length ≤ e.2.1 := by
  intro data h
  obtain ⟨l, hl, hp⟩ := statusEntries_total data (fromBytesLE (data.take 2)) h
    (fromBytesLE (data.take 2) + 1) 2 (by omega)
  refine ⟨l, ?_, hp⟩
  unfold parse_status_struct
  simp [h, hl]

/-- C10 witness: a payload whose single entry declares 5 parameter bytes
while only 1 remains in the buffer decodes without error. -/
theorem status_entries_total_witness :
    ([3, 0, 0xAA, 5, 1] : List Nat).length =
      fromBytesLE (([3, 0, 0xAA, 5, 1] : List Nat).take 2) + 2 ∧
    ∃ l, parse_status_struct [3, 0, 0xAA, 5, 1] = .ok l ∧
      ∀ e ∈ l, (e.2.2).length ≤ e.2.1 :=
  ⟨by decide, status_entries_total_spec [3, 0, 0xAA, 5, 1] (by decide)⟩

/-! ## Claim C9: absent status tags keep their defaults -/

/-- The entry handler leaves every field untouched except the one selected
by the entry's tag; unknown tags only touch the other map. -/
theorem statusStep_preserves (a : Status) (e : StatusEntry) (st2 : Status)
    (h : statusStep a e = .ok st2) :
    (e.1 ≠ 0x01 → st2.state = a.state) ∧
    (e.1 ≠ 0x02 → st2.error = a.error) ∧
    (e.1 ≠ 0x06 → st2.source = a.source) ∧
    (e.1 ≠ 0x0D → st2.maintenance_box = a.maintenance_box) ∧
    (e.1 ≠ 0x0F → st2.levels = a.levels) ∧
    (e.1 ≠ 0x40 → st2.serial = a.serial) ∧
    ((e.1 = 0x01 ∨ e.1 = 0x02 ∨ e.1 = 0x06 ∨ e.1 = 0x0D ∨ e.1 = 0x0F ∨ e.1 = 0x40) →
      st2.other = a.other) := by
  unfold statusStep at h
  split_ifs at h with h1 h2 h3 h4 h5 h6
  · cases hg : e.2.2.get? 0 with
    | none => rw [hg] at h; simp at h
    | some b =>
      rw [hg] at h
      simp only [Except.ok.injEq] at h
      subst h
      exact ⟨fun hc => absurd h1 hc, fun _ => rfl, fun _ => rfl, fun _ => rfl,
        fun _ => rfl, fun _ => rfl, fun _ => rfl⟩
  · cases hg : e.2.2.get? 0 with
    | none => rw [hg] at h; simp at h
    | some b =>
      rw [hg] at h
      simp only [Except.ok.injEq] at h
      subst h
      exact ⟨fun _ => rfl, fun hc => absurd h2 hc, fun _ => rfl, fun _ => rfl,
        fun _ => rfl, fun _ => rfl, fun _ => rfl⟩
  · cases hg : e.2.2.get? 0 with
    | none => rw [hg] at h; simp at h
    | some b =>
      rw [hg] at h
      simp only [Except.ok.injEq] at h
      subst h
      exact ⟨fun _ => rfl, fun _ => rfl, fun hc => absurd h3 hc, fun _ => rfl,
        fun _ => rfl, fun _ => rfl, fun _ => rfl⟩
  · cases hg : e.2.2.get? 0 with
    | none => rw [hg] at h; simp at h
    | some b =>
      rw [hg] at h
      simp only [Except.ok.injEq] at h
      subst h
      exact ⟨fun _ => rfl, fun _ => rfl, fun _ => rfl, fun hc => absurd h4 hc,
        fun _ => rfl, fun _ => rfl, fun _ => rfl⟩
  · cases hg : e.2.2.get? 0 with
    | none => rw [hg] at h; simp at h
    | some b =>
      rw [hg] at h
      dsimp only at h
      by_cases hz : b = 0
      · rw [if_pos hz] at h
        simp at h
      · rw [if_neg hz] at h
        cases hil : inkLevelsAux e.2.2 (b - 1) (e.2.2.length + 1) 1 with
        | error er => rw [hil] at h; simp at h
        | ok lvs =>
          rw [hil] at h
          simp only [Except.ok.injEq] at h
          subst h
          exact ⟨fun _ => rfl, fun _ => rfl, fun _ => rfl, fun _ => rfl,
            fun hc => absurd h5 hc, fun _ => rfl, fun _ => rfl⟩
  · simp only [Except.ok.injEq] at h
    subst h
    exact ⟨fun _ => rfl, fun _ => rfl, fun _ => rfl, fun _ => rfl,
      fun _ => rfl, fun hc => absurd h6 hc, fun _ => rfl⟩
  · simp only [Except.ok.injEq] at h
    subst h
    refine ⟨fun _ => rfl, fun _ => rfl, fun _ => rfl, fun _ => rfl,
      fun _ => rfl, fun _ => rfl, fun hk => ?_⟩
    rcases hk with hk | hk | hk | hk | hk | hk <;> exact absurd hk (by assumption)

/-- Folding the entry handler preserves any projection that every single
step preserves. -/
theorem foldlM_statusStep_field {α : Type} (f : Status → α) :
    ∀ (es : List StatusEntry) (acc st : Status),
      es.foldlM statusStep acc = .ok st →
      (∀ (a : Status) (e : StatusEntry) (st2 : Status), e ∈ es →
        statusStep a e = .ok st2 → f st2 = f a) →
      f st = f acc := by
  intro es
  induction es with
  | nil =>
    intro acc st h _
    have h2 : Except.ok acc = Except.ok (ε := String) st := h
    rw [Except.ok.inj h2]
  | cons e rest ih =>
    intro acc st h hpres
    rw [List.foldlM_cons] at h
    cases hstep : statusStep acc e with
    | error er =>
      rw [hstep] at h
      exact absurd ((rfl : (Except.error er : Except String Status) >>=
        (fun b => rest.foldlM statusStep b) = Except.error er) ▸ h)
        (fun hcon => Except.noConfusion hcon)
    | ok mid =>
      rw [hstep] at h
      have h2 : rest.foldlM statusStep mid = .ok st := h
      have hrest := ih mid st h2
        (fun a e2 st2 hm hs => hpres a e2 st2 (List.mem_cons_of_mem _ hm) hs)
      rw [hrest, hpres acc e mid (List.mem_cons_self _ _) hstep]

/-- C9: for every status payload whose TLV decoding succeeds, each field
whose tag is absent from the payload keeps its default in the returned
Status: state IDLE, error NONE, source UNKNOWN, empty levels,
maintenance box (-1, UNKNOWN), empty serial, and, when every present tag is
a known one, an empty other map. -/
theorem status_defaults_spec : ∀ (data : List Nat) (st : Status),
    Status.from_bytes data = .ok st →
    (0x01 ∉ payloadTags data → st.state = .IDLE) ∧
    (0x02 ∉ payloadTags data → st.error = .NONE) ∧
    (0x06 ∉ payloadTags data → st.source = .UNKNOWN) ∧
    (0x0D ∉ payloadTags data → st.maintenance_box = ⟨-1, .UNKNOWN⟩) ∧
    (0x0F ∉ payloadTags data → st.levels = []) ∧
    (0x40 ∉ payloadTags data → st.serial = "") ∧
    ((∀ t ∈ payloadTags data,
        t = 0x01 ∨ t = 0x02 ∨ t = 0x06 ∨ t = 0x0D ∨ t = 0x0F ∨ t = 0x40) →
      st.other = []) := by
  intro data st h
  unfold Status.from_bytes at h
  cases hp : parse_status_struct data with
  | error e =>
    rw [hp] at h
    exact absurd ((rfl : (Except.error e : Except String (List StatusEntry)) >>=
      (fun entries => entries.foldlM statusStep initStatus) = Except.error e) ▸ h)
      (fun hcon => Except.noConfusion hcon)
  | ok es =>
    rw [hp] at h
    have h : es.foldlM statusStep initStatus = .ok st := h
    have htags : payloadTags data = es.map (·.1) := by
      unfold payloadTags
      rw [hp]
    rw [htags]
    refine ⟨fun hni => ?_, fun hni => ?_, fun hni => ?_, fun hni => ?_,
      fun hni => ?_, fun hni => ?_, fun hall => ?_⟩
    · exact foldlM_statusStep_field (·.state) es initStatus st h
        (fun a e st2 hm hs => (statusStep_preserves a e st2 hs).1
          (fun heq => hni (heq ▸ List.mem_map_of_mem (·.1) hm)))
    · exact foldlM_statusStep_field (·.error) es initStatus st h
        (fun a e st2 hm hs => (statusStep_preserves a e st2 hs).2.1
          (fun heq => hni (heq ▸ List.mem_map_of_mem (·.1) hm)))
    · exact foldlM_statusStep_field (·.source) es initStatus st h
        (fun a e st2 hm hs => (statusStep_preserves a e st2 hs).2.2.1
          (fun heq => hni (heq ▸ List.mem_map_of_mem (·.1) hm)))
    · exact foldlM_statusStep_field (·.maintenance_box) es initStatus st h
        (fun a e st2 hm hs => (statusStep_preserves a e st2 hs).2.2.2.1
          (fun heq => hni (heq ▸ List.mem_map_of_mem (·.1) hm)))
    · exact foldlM_statusStep_field (·.levels) es initStatus st h
        (fun a e st2 hm hs => (statusStep_preserves a e st2 hs).2.2.2.2.1
          (fun heq => hni (heq ▸ List.mem_map_of_mem (·.1) hm)))
    · exact foldlM_statusStep_field (·.serial) es initStatus st h
        (fun a e st2 hm hs => (statusStep_preserves a e st2 hs).2.2.2.2.2.1
          (fun heq => hni (heq ▸ List.mem_map_of_mem (·.1) hm)))
    · exact foldlM_statusStep_field (·.other) es initStatus st h
        (fun a e st2 hm hs => (statusStep_preserves a e st2 hs).2.2.2.2.2.2
          (hall e.1 (List.mem_map_of_mem (·.1) hm)))

/-- C9 witness: the empty status payload decodes successfully and every
field holds its default. -/
theorem status_defaults_witness :
    Status.from_bytes [0, 0] = .ok initStatus ∧
    initStatus.state = .IDLE ∧ initStatus.error = .NONE ∧
    initStatus.source = .UNKNOWN ∧ initStatus.levels = [] ∧
    initStatus.maintenance_box = ⟨-1, .UNKNOWN⟩ ∧ initStatus.serial = "" ∧
    initStatus.other = [] := by
  have h := status_defaults_spec [0, 0] initStatus rfl
  exact ⟨rfl, h.1 (by decide), h.2.1 (by decide), h.2.2.1 (by decide),
    h.2.2.2.2.1 (by decide), h.2.2.2.1 (by decide), h.2.2.2.2.2.1 (by decide),
    h.2.2.2.2.2.2 (by decide)⟩

/-! ## D4 engine step lemmas -/

theorem chUpd_same (f : Nat → Option D4Channel) (p : Nat) (ch : D4Channel) :
    chUpd f p ch p = some ch := by
  simp [chUpd]

theorem chUpd_chUpd (f : Nat → Option D4Channel) (p : Nat) (A B : D4Channel) :
    chUpd (chUpd f p A) p B = chUpd f p B := by
  funext q
  unfold chUpd
  by_cases hq : q = p <;> simp [hq]

theorem stepFacts_refl (s : D4State) : stepFacts s s :=
  ⟨id, id, fun _ ch h => ⟨ch, h, le_refl _, rfl, rfl, rfl, rfl⟩,
   fun ha => ⟨ha, fun _ => rfl⟩⟩

theorem stepFacts_trans {s1 s2 s3 : D4State}
    (ha : stepFacts s1 s2) (hb : stepFacts s2 s3) : stepFacts s1 s3 := by
  refine ⟨fun hg => hb.1 (ha.1 hg), fun hw => ha.2.1 (hb.2.1 hw), ?_, ?_⟩
  · intro p ch h
    obtain ⟨c2, h2, hr2, hm2, hp2, hs2, hu2⟩ := ha.2.2.1 p ch h
    obtain ⟨c3, h3, hr3, hm3, hp3, hs3, hu3⟩ := hb.2.2.1 p c2 h2
    exact ⟨c3, h3, le_trans hr3 hr2, hm3.trans hm2, hp3.trans hp2,
      hs3.trans hs2, hu3.trans hu2⟩
  · intro hal
    obtain ⟨hal2, hl2⟩ := ha.2.2.2 hal
    obtain ⟨hal3, hl3⟩ := hb.2.2.2 hal2
    exact ⟨hal3, fun q => (hl3 q).trans (hl2 q)⟩

/-- Filtered credit sums over an extended log. -/
theorem recvCreditsOn_append (c : Nat) (l l2 : List D4Packet) :
    (((l ++ l2).filter (fun pkt => pkt.psid = c)).map (·.credit)).sum =
      ((l.filter (fun pkt => pkt.psid = c)).map (·.credit)).sum +
        ((l2.filter (fun pkt => pkt.psid = c)).map (·.credit)).sum := by
  simp [List.filter_append, List.sum_append]

theorem readNextPacket_step (s s2 : D4State)
    (h : readNextPacket s = some s2) : stepFacts s s2 := by
  unfold readNextPacket at h
  cases hin : s.inbound with
  | nil =>
    rw [hin] at h
    exact Option.noConfusion h
  | cons pkt rest =>
    rw [hin] at h
    dsimp only at h
    cases hch : s.open_channels pkt.psid with
    | none =>
      rw [hch] at h
      have hs := Option.some.inj h
      subst hs
      refine ⟨fun hg => ⟨fun hw => hg.1 hw, ?_⟩, fun hw => hw, ?_, ?_⟩
      · intro pkt2 hm
        exact hg.2 pkt2 (by rw [hin]; exact List.mem_cons_of_mem _ hm)
      · intro p ch hc
        exact ⟨ch, hc, le_refl _, rfl, rfl, rfl, rfl⟩
      · intro hal
        exact ⟨hal, fun q => rfl⟩
    | some ch =>
      rw [hch] at h
      have hs := Option.some.inj h
      subst hs
      have hpktmem : pkt ∈ s.inbound := by
        rw [hin]
        exact List.mem_cons_self _ _
      refine ⟨fun hg => ⟨?_, ?_⟩, ?_, ?_, ?_⟩
      · intro hw2
        rw [Bool.and_eq_true] at hw2
        obtain ⟨hinv, hal⟩ := hg.1 hw2.1
        have hcr : 0 ≤ pkt.credit := hg.2 pkt hpktmem
        constructor
        · intro p2 ch2 hc2
          simp only [chUpd] at hc2
          by_cases hp2 : p2 = pkt.psid
          · rw [if_pos hp2] at hc2
            have hc2e := Option.some.inj hc2
            obtain ⟨htx, hrx⟩ := hinv p2 ch (hp2 ▸ hch)
            subst hc2e
            constructor
            · simp only []
              omega
            · intro hne
              have hor := hw2.2
              rw [Bool.or_eq_true] at hor
              have hcond : (1 : Int) ≤ ch.rx_credits := by
                rcases hor with hc0 | hge
                · exfalso
                  apply hne
                  rw [hp2]
                  simpa using hc0
                · exact of_decide_eq_true hge
              have := hrx hne
              simp only []
              omega
          · rw [if_neg hp2] at hc2
            exact hinv p2 ch2 hc2
        · intro p2 ch2 hc2
          simp only [chUpd] at hc2
          by_cases hp2 : p2 = pkt.psid
          · rw [if_pos hp2] at hc2
            have hc2e := Option.some.inj hc2
            subst hc2e
            exact hal p2 ch (hp2 ▸ hch)
          · rw [if_neg hp2] at hc2
            exact hal p2 ch2 hc2
      · intro pkt2 hm
        exact hg.2 pkt2 (by rw [hin]; exact List.mem_cons_of_mem _ hm)
      · intro hw2
        rw [Bool.and_eq_true] at hw2
        exact hw2.1
      · intro p2 ch2 hc2
        simp only [chUpd]
        by_cases hp2 : p2 = pkt.psid
        · subst hp2
          have hce : ch = ch2 := Option.some.inj (hch.symm.trans hc2)
          subst hce
          refine ⟨_, if_pos rfl, ?_, rfl, rfl, rfl, rfl⟩
          simp only []
          omega
        · exact ⟨ch2, by rw [if_neg hp2]; exact hc2, le_refl _, rfl, rfl, rfl, rfl⟩
      · intro hal
        constructor
        · intro p2 ch2 hc2
          simp only [chUpd] at hc2
          by_cases hp2 : p2 = pkt.psid
          · rw [if_pos hp2] at hc2
            have hc2e := Option.some.inj hc2
            subst hc2e
            exact hal p2 ch (hp2 ▸ hch)
          · rw [if_neg hp2] at hc2
            exact hal p2 ch2 hc2
        · intro q
          unfold ledger chTx sentOn recvCreditsOn grantsOn
          simp only [chUpd]
          by_cases hq : q = pkt.psid
          · rw [if_pos hq]
            rw [hq, hch]
            rw [recvCreditsOn_append]
            have : (List.filter (fun pkt2 => decide (pkt2.psid = pkt.psid)) [pkt]) = [pkt] := by
              simp
            simp only [this]
            simp
          · rw [if_neg hq]
            rw [recvCreditsOn_append]
            have : (List.filter (fun pkt2 => decide (pkt2.psid = q)) [pkt]) = [] := by
              simp
              omega
            simp only [this]
            simp

theorem stepFacts_to_opFacts {s s2 : D4State} (h : stepFacts s s2) : opFacts s s2 :=
  ⟨h.1, h.2.1, h.2.2.2⟩

theorem opFacts_to_invFacts {s s2 : D4State} (h : opFacts s s2) : invFacts s s2 :=
  ⟨h.1, h.2.1⟩

theorem opFacts_refl (s : D4State) : opFacts s s :=
  stepFacts_to_opFacts (stepFacts_refl s)

theorem opFacts_trans {s1 s2 s3 : D4State}
    (ha : opFacts s1 s2) (hb : opFacts s2 s3) : opFacts s1 s3 := by
  refine ⟨fun hg => hb.1 (ha.1 hg), fun hw => ha.2.1 (hb.2.1 hw), fun hal => ?_⟩
  obtain ⟨hal2, hl2⟩ := ha.2.2 hal
  obtain ⟨hal3, hl3⟩ := hb.2.2 hal2
  exact ⟨hal3, fun q => (hl3 q).trans (hl2 q)⟩

theorem writePacket_step (s s2 : D4State) (p : Nat) (pkt : D4Packet)
    (hpk : chanAligned s → pkt.psid = p)
    (h : writePacket s p pkt = some s2) :
    ((s.wfOk = true → Good s →
        ∃ ch, s.open_channels p = some ch ∧ 1 ≤ ch.tx_credits) →
      Good s → Good s2) ∧
    (s2.wfOk = true → s.wfOk = true) ∧ entryPres s s2 ∧
    (chanAligned s → chanAligned s2 ∧ ∀ q, ledger q s2 = ledger q s) := by
  unfold writePacket at h
  split_ifs at h with hok
  cases hch : s.open_channels p with
  | none =>
    rw [hch] at h
    exact Option.noConfusion h
  | some ch =>
    rw [hch] at h
    have hs := Option.some.inj h
    subst hs
    refine ⟨fun htx hg => ⟨?_, hg.2⟩, fun hw => hw, ?_, ?_⟩
    · intro hw2
      obtain ⟨hinv, hal⟩ := hg.1 hw2
      constructor
      · intro p2 ch2 hc2
        simp only [chUpd] at hc2
        by_cases hp2 : p2 = p
        · rw [if_pos hp2] at hc2
          have hc2e := Option.some.inj hc2
          subst hc2e
          obtain ⟨ch3, hc3, htx3⟩ := htx hw2 hg
          have hc3c := Option.some.inj hc3
          constructor
          · rw [hc3c]
            simp only []
            omega
          · intro hne
            exact (hinv p ch hch).2 (hp2 ▸ hne)
        · rw [if_neg hp2] at hc2
          exact hinv p2 ch2 hc2
      · intro p2 ch2 hc2
        simp only [chUpd] at hc2
        by_cases hp2 : p2 = p
        · rw [if_pos hp2] at hc2
          have hc2e := Option.some.inj hc2
          subst hc2e
          exact hal p2 ch (hp2 ▸ hch)
        · rw [if_neg hp2] at hc2
          exact hal p2 ch2 hc2
    · intro p2 ch2 hc2
      simp only [chUpd]
      by_cases hp2 : p2 = p
      · subst hp2
        have hce : ch = ch2 := Option.some.inj (hch.symm.trans hc2)
        subst hce
        exact ⟨_, if_pos rfl, le_refl _, rfl, rfl, rfl, rfl⟩
      · exact ⟨ch2, by rw [if_neg hp2]; exact hc2, le_refl _, rfl, rfl, rfl, rfl⟩
    · intro hal
      have hpkp : pkt.psid = p := hpk hal
      constructor
      · intro p2 ch2 hc2
        simp only [chUpd] at hc2
        by_cases hp2 : p2 = p
        · rw [if_pos hp2] at hc2
          have hc2e := Option.some.inj hc2
          subst hc2e
          exact hal p2 ch (hp2 ▸ hch)
        · rw [if_neg hp2] at hc2
          exact hal p2 ch2 hc2
      · intro q
        unfold ledger chTx sentOn recvCreditsOn grantsOn
        simp only [chUpd]
        by_cases hq : q = p
        · rw [if_pos hq]
          rw [hq, hch]
          have hf : (s.sent ++ [pkt]).filter (fun pkt2 => pkt2.psid = q) =
              s.sent.filter (fun pkt2 => pkt2.psid = q) ++ [pkt] := by
            rw [List.filter_append]
            congr 1
            simp [hpkp, hq]
          rw [hq] at hf
          rw [hf]
          simp only [List.length_append, List.length_singleton]
          push_cast
          ring
        · rw [if_neg hq]
          have hf : (s.sent ++ [pkt]).filter (fun pkt2 => pkt2.psid = q) =
              s.sent.filter (fun pkt2 => pkt2.psid = q) := by
            rw [List.filter_append]
            have : [pkt].filter (fun pkt2 => pkt2.psid = q) = [] := by
              simp [hpkp]
              omega
            rw [this, List.append_nil]
          rw [hf]

theorem readPacketAux_step : ∀ (fuel : Nat) (s : D4State) (p : Nat)
    (s2 : D4State) (pkt : D4Packet),
    readPacketAux fuel s p = some (s2, pkt) → stepFacts s s2 := by
  intro fuel
  induction fuel with
  | zero =>
    intro s p s2 pkt h
    exact Option.noConfusion h
  | succ fuel ih =>
    intro s p s2 pkt h
    unfold readPacketAux at h
    cases hch : s.open_channels p with
    | none =>
      rw [hch] at h
      exact Option.noConfusion h
    | some ch =>
      rw [hch] at h
      dsimp only at h
      cases hq : ch.rx_queue with
      | cons pkt2 rest =>
        rw [hq] at h
        dsimp only at h
        have hs := Prod.mk.injEq _ _ _ _ ▸ Option.some.inj h
        obtain ⟨hs1, _⟩ := hs
        subst hs1
        refine ⟨fun hg => ⟨?_, hg.2⟩, fun hw => hw, ?_, ?_⟩
        · intro hw2
          obtain ⟨hinv, hal⟩ := hg.1 hw2
          constructor
          · intro p2 ch2 hc2
            simp only [chUpd] at hc2
            by_cases hp2 : p2 = p
            · rw [if_pos hp2] at hc2
              have hc2e := Option.some.inj hc2
              subst hc2e
              exact hinv p2 ch (hp2 ▸ hch)
            · rw [if_neg hp2] at hc2
              exact hinv p2 ch2 hc2
          · intro p2 ch2 hc2
            simp only [chUpd] at hc2
            by_cases hp2 : p2 = p
            · rw [if_pos hp2] at hc2
              have hc2e := Option.some.inj hc2
              subst hc2e
              exact hal p2 ch (hp2 ▸ hch)
            · rw [if_neg hp2] at hc2
              exact hal p2 ch2 hc2
        · intro p2 ch2 hc2
          simp only [chUpd]
          by_cases hp2 : p2 = p
          · subst hp2
            have hce : ch = ch2 := Option.some.inj (hch.symm.trans hc2)
            subst hce
            exact ⟨_, if_pos rfl, le_refl _, rfl, rfl, rfl, rfl⟩
          · exact ⟨ch2, by rw [if_neg hp2]; exact hc2, le_refl _, rfl, rfl, rfl, rfl⟩
        · intro hal
          constructor
          · intro p2 ch2 hc2
            simp only [chUpd] at hc2
            by_cases hp2 : p2 = p
            · rw [if_pos hp2] at hc2
              have hc2e := Option.some.inj hc2
              subst hc2e
              exact hal p2 ch (hp2 ▸ hch)
            · rw [if_neg hp2] at hc2
              exact hal p2 ch2 hc2
          · intro q
            unfold ledger chTx sentOn recvCreditsOn grantsOn
            simp only [chUpd]
            by_cases hq2 : q = p
            · rw [if_pos hq2, hq2, hch]
            · rw [if_neg hq2]
      | nil =>
        rw [hq] at h
        dsimp only at h
        cases hn : readNextPacket s with
        | none =>
          rw [hn] at h
          exact Option.noConfusion h
        | some s3 =>
          rw [hn] at h
          exact stepFacts_trans (readNextPacket_step s s3 hn) (ih s3 p s2 pkt h)

theorem readPacket_step (s : D4State) (p : Nat) (s2 : D4State) (pkt : D4Packet)
    (h : readPacket s p = some (s2, pkt)) : stepFacts s s2 :=
  readPacketAux_step _ s p s2 pkt h

/-- Decomposition of a successful command: the channel-0 credit assertion
passed, the request packet went out through writePacket, and the reply came
in through readPacket. -/
theorem commandOp_parts (s : D4State) (cmd : Nat) (pl : List Nat)
    (s2 : D4State) (res : List Nat) (h : commandOp s cmd pl = some (s2, res)) :
    ∃ ch0, s.open_channels 0 = some ch0 ∧
      ¬ (cmd ≠ 0 ∧ cmd ≠ 8 ∧ ch0.tx_credits = 0) ∧
      ∃ s1 reply, writePacket s 0 ⟨0, 0, 1, 0, cmd :: pl⟩ = some s1 ∧
        readPacket s1 0 = some (s2, reply) := by
  unfold commandOp at h
  cases hch0 : s.open_channels 0 with
  | none =>
    rw [hch0] at h
    exact Option.noConfusion h
  | some ch0 =>
    rw [hch0] at h
    dsimp only at h
    split_ifs at h with hguard
    refine ⟨ch0, rfl, hguard, ?_⟩
    cases hw1 : writePacket s 0 ⟨0, 0, 1, 0, cmd :: pl⟩ with
    | none =>
      rw [hw1] at h
      exact Option.noConfusion h
    | some s1 =>
      rw [hw1] at h
      dsimp only at h
      cases hr : readPacket s1 0 with
      | none =>
        rw [hr] at h
        exact Option.noConfusion h
      | some pr =>
        obtain ⟨s2x, reply⟩ := pr
        rw [hr] at h
        dsimp only at h
        split_ifs at h with hps
        cases hpl : reply.payload with
        | nil =>
          rw [hpl] at h
          exact Option.noConfusion h
        | cons b0 brest =>
          rw [hpl] at h
          dsimp only at h
          split_ifs at h with h7f hb0
          cases hbr : brest with
          | nil =>
            rw [hbr] at h
            exact Option.noConfusion h
          | cons b1 brest2 =>
            rw [hbr] at h
            dsimp only at h
            split_ifs at h with hb1
            have hs := Option.some.inj h
            have hs2 : s2x = s2 := congrArg Prod.fst hs
            subst hs2
            exact ⟨s1, reply, rfl, hr⟩

theorem commandOp_step (s : D4State) (cmd : Nat) (pl : List Nat)
    (s2 : D4State) (res : List Nat)
    (hcmd : (cmd ≠ 0 ∧ cmd ≠ 8) ∨ (s.wfOk = true → Good s →
      ∃ ch0, s.open_channels 0 = some ch0 ∧ 1 ≤ ch0.tx_credits))
    (h : commandOp s cmd pl = some (s2, res)) : stepFacts s s2 := by
  obtain ⟨ch0, hch0, hguard, s1, reply, hw1, hr⟩ := commandOp_parts s cmd pl s2 res h
  have htx : s.wfOk = true → Good s →
      ∃ ch, s.open_channels 0 = some ch ∧ 1 ≤ ch.tx_credits := by
    intro hw hg
    rcases hcmd with ⟨hc0, hc8⟩ | hinit
    · refine ⟨ch0, hch0, ?_⟩
      have h0 : ch0.tx_credits ≠ 0 := fun hz => hguard ⟨hc0, hc8, hz⟩
      have := (hg.1 hw).1 0 ch0 hch0
      omega
    · exact hinit hw hg
  have hwp := writePacket_step s s1 0 _ (fun _ => rfl) hw1
  exact stepFacts_trans
    ⟨hwp.1 htx, hwp.2.1, hwp.2.2.1, hwp.2.2.2⟩
    (readPacket_step s1 0 s2 reply hr)

theorem CreditOp_step (s : D4State) (p : Nat) (amount : Int) (s2 : D4State)
    (h : CreditOp s p amount = some s2) : stepFacts s s2 := by
  unfold CreditOp at h
  cases hch : s.open_channels p with
  | none =>
    rw [hch] at h
    exact Option.noConfusion h
  | some ch =>
    rw [hch] at h
    dsimp only at h
    cases hpsid : ch.psid with
    | none =>
      rw [hpsid] at h
      exact Option.noConfusion h
    | some cp =>
      rw [hpsid] at h
      dsimp only at h
      split_ifs at h with hrange
      cases hcmd : commandOp s 3 ([cp, ch.ssid] ++ toBytesBE2 amount.toNat) with
      | none =>
        rw [hcmd] at h
        exact Option.noConfusion h
      | some pr =>
        obtain ⟨s3, res⟩ := pr
        rw [hcmd] at h
        dsimp only at h
        have hs := Option.some.inj h
        subst hs
        exact commandOp_step s 3 _ s3 res (Or.inl ⟨by decide, by decide⟩) hcmd

theorem GetSocketIDOp_step (s : D4State) (name : List Nat) (s2 : D4State)
    (b : Nat) (h : GetSocketIDOp s name = some (s2, b)) : stepFacts s s2 := by
  unfold GetSocketIDOp at h
  cases hcmd : commandOp s 9 name with
  | none =>
    rw [hcmd] at h
    exact Option.noConfusion h
  | some pr =>
    obtain ⟨s3, resp⟩ := pr
    rw [hcmd] at h
    dsimp only at h
    cases hresp : resp with
    | nil =>
      rw [hresp] at h
      exact Option.noConfusion h
    | cons b0 rest =>
      rw [hresp] at h
      dsimp only at h
      have hs := Option.some.inj h
      have hs1 : s3 = s2 := congrArg Prod.fst hs
      subst hs1
      exact commandOp_step s 9 name s3 resp (Or.inl ⟨by decide, by decide⟩) hcmd

theorem CreditRequestOp_step (s : D4State) (p : Nat) (s2 : D4State)
    (amount : Nat) (h : CreditRequestOp s p = some (s2, amount)) :
    stepFacts s s2 ∧ (Good s → s2.wfOk = true →
      ∃ ch2, s2.open_channels p = some ch2 ∧ (amount : Int) ≤ ch2.tx_credits) := by
  unfold CreditRequestOp at h
  cases hch : s.open_channels p with
  | none =>
    rw [hch] at h
    exact Option.noConfusion h
  | some ch =>
    rw [hch] at h
    dsimp only at h
    cases hpsid : ch.psid with
    | none =>
      rw [hpsid] at h
      exact Option.noConfusion h
    | some cp =>
      rw [hpsid] at h
      dsimp only at h
      split_ifs at h with hrange
      cases hcmd : commandOp s 4 ([cp, ch.ssid] ++ toBytesBE2 0xFFFF) with
      | none =>
        rw [hcmd] at h
        exact Option.noConfusion h
      | some pr =>
        obtain ⟨s3, res⟩ := pr
        rw [hcmd] at h
        dsimp only at h
        have f1 : stepFacts s s3 :=
          commandOp_step s 4 _ s3 res (Or.inl ⟨by decide, by decide⟩) hcmd
        cases hres : res with
        | nil =>
          rw [hres] at h
          exact Option.noConfusion h
        | cons r1 res1 =>
          cases hres1 : res1 with
          | nil =>
            rw [hres, hres1] at h
            exact Option.noConfusion h
          | cons r2 res2 =>
            cases hres2 : res2 with
            | nil =>
              rw [hres, hres1, hres2] at h
              exact Option.noConfusion h
            | cons a1 res3 =>
              cases hres3 : res3 with
              | nil =>
                rw [hres, hres1, hres2, hres3] at h
                exact Option.noConfusion h
              | cons a2 res4 =>
                cases hres4 : res4 with
                | cons x xs =>
                  rw [hres, hres1, hres2, hres3, hres4] at h
                  exact Option.noConfusion h
                | nil =>
                  rw [hres, hres1, hres2, hres3, hres4] at h
                  dsimp only at h
                  cases hch2 : s3.open_channels cp with
                  | none =>
                    rw [hch2] at h
                    exact Option.noConfusion h
                  | some ch2 =>
                    rw [hch2] at h
                    dsimp only at h
                    have hs := Option.some.inj h
                    have hamt : fromBytesBE2 a1 a2 = amount := congrArg Prod.snd hs
                    have hs1 := congrArg Prod.fst hs
                    dsimp only at hs1
                    subst hs1
                    constructor
                    · refine stepFacts_trans f1 ?_
                      refine ⟨fun hg3 => ⟨?_, hg3.2⟩, fun hw => hw, ?_, ?_⟩
                      · intro hw2
                        obtain ⟨hinv, hal⟩ := hg3.1 hw2
                        constructor
                        · intro p2 ch3 hc3
                          simp only [chUpd] at hc3
                          by_cases hp2 : p2 = cp
                          · rw [if_pos hp2] at hc3
                            have hc3e := Option.some.inj hc3
                            subst hc3e
                            obtain ⟨htx2, hrx2⟩ := hinv p2 ch2 (by rw [hp2]; exact hch2)
                            constructor
                            · simp only []
                              have : (0 : Int) ≤ (fromBytesBE2 a1 a2 : Int) := by positivity
                              omega
                            · exact hrx2
                          · rw [if_neg hp2] at hc3
                            exact hinv p2 ch3 hc3
                        · intro p2 ch3 hc3
                          simp only [chUpd] at hc3
                          by_cases hp2 : p2 = cp
                          · rw [if_pos hp2] at hc3
                            have hc3e := Option.some.inj hc3
                            subst hc3e
                            exact hal p2 ch2 (by rw [hp2]; exact hch2)
                          · rw [if_neg hp2] at hc3
                            exact hal p2 ch3 hc3
                      · intro p2 ch3 hc3
                        simp only [chUpd]
                        by_cases hp2 : p2 = cp
                        · subst hp2
                          have hce : ch2 = ch3 := Option.some.inj (hch2.symm.trans hc3)
                          subst hce
                          exact ⟨_, if_pos rfl, le_refl _, rfl, rfl, rfl, rfl⟩
                        · exact ⟨ch3, by rw [if_neg hp2]; exact hc3, le_refl _,
                            rfl, rfl, rfl, rfl⟩
                      · intro hal
                        constructor
                        · intro p2 ch3 hc3
                          simp only [chUpd] at hc3
                          by_cases hp2 : p2 = cp
                          · rw [if_pos hp2] at hc3
                            have hc3e := Option.some.inj hc3
                            subst hc3e
                            exact hal p2 ch2 (by rw [hp2]; exact hch2)
                          · rw [if_neg hp2] at hc3
                            exact hal p2 ch3 hc3
                        · intro q
                          unfold ledger chTx sentOn recvCreditsOn grantsOn
                          simp only [chUpd]
                          by_cases hq : q = cp
                          · rw [if_pos hq, hq, hch2]
                            have hf : (s3.grantLog ++ [(cp, fromBytesBE2 a1 a2)]).filter
                                (fun g => g.1 = cp) =
                                s3.grantLog.filter (fun g => g.1 = cp) ++
                                  [(cp, fromBytesBE2 a1 a2)] := by
                              rw [List.filter_append]
                              congr 1
                              simp
                            rw [hf]
                            simp only [List.map_append, List.sum_append,
                              List.map_cons, List.map_nil, List.sum_cons,
                              List.sum_nil]
                            omega
                          · rw [if_neg hq]
                            have hf : (s3.grantLog ++ [(cp, fromBytesBE2 a1 a2)]).filter
                                (fun g => g.1 = q) =
                                s3.grantLog.filter (fun g => g.1 = q) := by
                              rw [List.filter_append]
                              have : ([(cp, fromBytesBE2 a1 a2)].filter
                                  (fun g => g.1 = q)) = [] := by
                                simp
                                omega
                              rw [this, List.append_nil]
                            rw [hf]
                    · intro hg hw2
                      have hw3 : s3.wfOk = true := hw2
                      have hwS : s.wfOk = true := f1.2.1 hw3
                      have hcp : cp = p := by
                        rcases (hg.1 hwS).2 p ch hch with hap | han
                        · exact Option.some.inj (hpsid.symm.trans hap)
                        · exact absurd (hpsid.symm.trans han) (by simp)
                      subst hcp
                      have hg3 : Good s3 := f1.1 hg
                      obtain ⟨htx2, _⟩ := (hg3.1 hw3).1 cp ch2 hch2
                      refine ⟨{ ch2 with tx_credits :=
                          ch2.tx_credits + (fromBytesBE2 a1 a2 : Int) }, ?_, ?_⟩
                      · simp [chUpd]
                      · subst hamt
                        simp only []
                        omega

theorem ensureCreditAux_step : ∀ (fuel : Nat) (s : D4State) (p : Nat)
    (s2 : D4State), ensureCreditAux fuel s p = some s2 →
    stepFacts s s2 ∧ (Good s → s2.wfOk = true →
      ∃ ch2, s2.open_channels p = some ch2 ∧ 1 ≤ ch2.tx_credits) := by
  intro fuel
  induction fuel with
  | zero =>
    intro s p s2 h
    exact Option.noConfusion h
  | succ fuel ih =>
    intro s p s2 h
    unfold ensureCreditAux at h
    cases hcr : CreditRequestOp s p with
    | none =>
      rw [hcr] at h
      exact Option.noConfusion h
    | some pr =>
      obtain ⟨s3, amount⟩ := pr
      rw [hcr] at h
      dsimp only at h
      have hf := CreditRequestOp_step s p s3 amount hcr
      split_ifs at h with hamt
      · obtain ⟨f2, fact2⟩ := ih s3 p s2 h
        exact ⟨stepFacts_trans hf.1 f2,
          fun hg hw2 => fact2 (hf.1.1 hg) hw2⟩
      · have hs := Option.some.inj h
        subst hs
        refine ⟨hf.1, fun hg hw2 => ?_⟩
        obtain ⟨ch2, hc2, hle⟩ := hf.2 hg hw2
        refine ⟨ch2, hc2, ?_⟩
        have : 1 ≤ amount := by omega
        have : (1 : Int) ≤ (amount : Int) := by exact_mod_cast this
        omega

theorem ensureCredit_step (s : D4State) (p : Nat) (s2 : D4State)
    (h : ensureCredit s p = some s2) :
    stepFacts s s2 ∧ (Good s → s2.wfOk = true →
      ∃ ch2, s2.open_channels p = some ch2 ∧ 1 ≤ ch2.tx_credits) := by
  unfold ensureCredit at h
  cases hch : s.open_channels p with
  | none =>
    rw [hch] at h
    exact Option.noConfusion h
  | some ch =>
    rw [hch] at h
    dsimp only at h
    split_ifs at h with hlt
    · exact ensureCreditAux_step _ s p s2 h
    · have hs := Option.some.inj h
      subst hs
      exact ⟨stepFacts_refl s, fun _ _ => ⟨ch, hch, by omega⟩⟩

/-- Raising (or lowering) the advertised credit of one channel preserves
the invariant whenever the new value stays within bounds, and never touches
the credit ledger. -/
theorem rxBump_facts (s : D4State) (p : Nat) (ch : D4Channel) (credit : Int)
    (hch : s.open_channels p = some ch)
    (hbound : s.wfOk = true → Good s → p ≠ 0 →
      0 ≤ ch.rx_credits + credit ∧
        ch.rx_credits + credit ≤ ch.rx_credits_max) :
    opFacts s
      { s with
        open_channels := chUpd s.open_channels p
          ({ ch with rx_credits := ch.rx_credits + credit }) } := by
  refine ⟨fun hg => ⟨?_, hg.2⟩, fun hw => hw, ?_⟩
  · intro hw
    obtain ⟨hinv, hal⟩ := hg.1 hw
    constructor
    · intro p2 ch2 hc2
      simp only [chUpd] at hc2
      by_cases hp2 : p2 = p
      · rw [if_pos hp2] at hc2
        have hc2e := Option.some.inj hc2
        subst hc2e
        obtain ⟨htx, _⟩ := hinv p ch hch
        refine ⟨htx, fun hne => ?_⟩
        have hb := hbound hw hg (hp2 ▸ hne)
        exact ⟨by simp only []; omega, by simp only []; omega⟩
      · rw [if_neg hp2] at hc2
        exact hinv p2 ch2 hc2
    · intro p2 ch2 hc2
      simp only [chUpd] at hc2
      by_cases hp2 : p2 = p
      · rw [if_pos hp2] at hc2
        have hc2e := Option.some.inj hc2
        subst hc2e
        exact hal p2 ch (hp2 ▸ hch)
      · rw [if_neg hp2] at hc2
        exact hal p2 ch2 hc2
  · intro hal
    constructor
    · intro p2 ch2 hc2
      simp only [chUpd] at hc2
      by_cases hp2 : p2 = p
      · rw [if_pos hp2] at hc2
        have hc2e := Option.some.inj hc2
        subst hc2e
        exact hal p2 ch (hp2 ▸ hch)
      · rw [if_neg hp2] at hc2
        exact hal p2 ch2 hc2
    · intro q
      unfold ledger chTx sentOn recvCreditsOn grantsOn
      simp only [chUpd]
      by_cases hq : q = p
      · rw [if_pos hq, hq, hch]
      · rw [if_neg hq]

theorem writeLoop_step : ∀ (fuel : Nat) (s : D4State) (p : Nat)
    (data : List Nat) (s2 : D4State),
    writeLoop fuel s p data = some s2 → opFacts s s2 := by
  intro fuel
  induction fuel with
  | zero =>
    intro s p data s2 h
    exact Option.noConfusion h
  | succ fuel ih =>
    intro s p data s2 h
    unfold writeLoop at h
    cases data with
    | nil =>
      have hs := Option.some.inj h
      subst hs
      exact opFacts_refl s
    | cons d0 drest =>
      dsimp only at h
      cases hch : s.open_channels p with
      | none =>
        rw [hch] at h
        exact Option.noConfusion h
      | some ch =>
        rw [hch] at h
        dsimp only at h
        cases hmtu : ch.mtu with
        | none =>
          rw [hmtu] at h
          exact Option.noConfusion h
        | some mtu =>
          rw [hmtu] at h
          dsimp only at h
          cases hpsid : ch.psid with
          | none =>
            rw [hpsid] at h
            exact Option.noConfusion h
          | some cp =>
            rw [hpsid] at h
            dsimp only at h
            have hbound : s.wfOk = true → Good s → p ≠ 0 →
                0 ≤ ch.rx_credits + fragCredit ch ∧
                  ch.rx_credits + fragCredit ch ≤ ch.rx_credits_max := by
              intro hw hg hne
              obtain ⟨_, hrx⟩ := (hg.1 hw).1 p ch hch
              obtain ⟨h1, h2⟩ := hrx hne
              unfold fragCredit
              omega
            have fA : opFacts s (writeFragState s p ch) :=
              rxBump_facts s p ch (fragCredit ch) hch hbound
            cases hens : ensureCredit (writeFragState s p ch) p with
            | none =>
              rw [hens] at h
              exact Option.noConfusion h
            | some s3 =>
              rw [hens] at h
              dsimp only at h
              obtain ⟨fB, fBtx⟩ := ensureCredit_step (writeFragState s p ch) p s3 hens
              have hpk : chanAligned s3 →
                  (⟨cp, ch.ssid, fragCredit ch, 2, fragPayload mtu (d0 :: drest)⟩ :
                    D4Packet).psid = p := by
                intro hal3
                have hsaEntry : (writeFragState s p ch).open_channels p =
                    some { ch with rx_credits := ch.rx_credits + fragCredit ch } := by
                  unfold writeFragState
                  simp [chUpd]
                obtain ⟨ch3, hc3, _, _, hps3, _, _⟩ := fB.2.2.1 p _ hsaEntry
                rcases hal3 p ch3 hc3 with hap | han
                · have : some cp = some p := by
                    rw [← hpsid]
                    rw [← hap, hps3]
                  exact Option.some.inj this
                · exfalso
                  rw [hps3] at han
                  simp only [] at han
                  rw [hpsid] at han
                  exact Option.noConfusion han
              cases hwp : writePacket s3 p
                  ⟨cp, ch.ssid, fragCredit ch, 2, fragPayload mtu (d0 :: drest)⟩ with
              | none =>
                rw [hwp] at h
                exact Option.noConfusion h
              | some s4 =>
                rw [hwp] at h
                have hw4 := writePacket_step s3 s4 p _ hpk hwp
                have frec := ih s4 p _ s2 h
                refine ⟨?_, ?_, ?_⟩
                · intro hg
                  have hga : Good (writeFragState s p ch) := fA.1 hg
                  have hg3 : Good s3 := fB.1 hga
                  have hg4 : Good s4 := hw4.1 (fun hw3 _ => fBtx hga hw3) hg3
                  exact frec.1 hg4
                · intro hwend
                  exact fA.2.1 (fB.2.1 (hw4.2.1 (frec.2.1 hwend)))
                · intro hal
                  obtain ⟨hala, la⟩ := fA.2.2 hal
                  obtain ⟨hal3, l3⟩ := fB.2.2.2 hala
                  obtain ⟨hal4, l4⟩ := hw4.2.2.2 hal3
                  obtain ⟨hal2, l2⟩ := frec.2.2 hal4
                  exact ⟨hal2, fun q =>
                    ((l2 q).trans (l4 q)).trans ((l3 q).trans (la q))⟩

theorem chanWrite_step (s : D4State) (p : Nat) (data : List Nat)
    (s2 : D4State) (h : chanWrite s p data = some s2) : opFacts s s2 :=
  writeLoop_step _ s p data s2 h

theorem chanRead_step (s : D4State) (p : Nat) (s2 : D4State) (pkt : D4Packet)
    (h : chanRead s p = some (s2, pkt)) : opFacts s s2 := by
  unfold chanRead at h
  cases hch : s.open_channels p with
  | none =>
    rw [hch] at h
    exact Option.noConfusion h
  | some ch =>
    rw [hch] at h
    dsimp only at h
    split_ifs at h with hbig
    · cases hcr : CreditOp s p ((ch.rx_credits_max : Int) - ch.rx_credits) with
      | none =>
        rw [hcr] at h
        exact Option.noConfusion h
      | some s2a =>
        rw [hcr] at h
        dsimp only at h
        have f1 := CreditOp_step s p _ s2a hcr
        cases hch2 : s2a.open_channels p with
        | none =>
          rw [hch2] at h
          exact Option.noConfusion h
        | some ch2 =>
          rw [hch2] at h
          dsimp only at h
          have hbound : s2a.wfOk = true → Good s2a → p ≠ 0 →
              0 ≤ ch2.rx_credits + ((ch.rx_credits_max : Int) - ch.rx_credits) ∧
                ch2.rx_credits + ((ch.rx_credits_max : Int) - ch.rx_credits) ≤
                  ch2.rx_credits_max := by
            intro hw2 hg2 hne
            obtain ⟨chx, hcx, hrxle, hmaxeq, _, _, _⟩ := f1.2.2.1 p ch hch
            have hxx : chx = ch2 := Option.some.inj (hcx.symm.trans hch2)
            rw [hxx] at hrxle hmaxeq
            obtain ⟨_, hrx2⟩ := (hg2.1 hw2).1 p ch2 hch2
            obtain ⟨hr1, hr2⟩ := hrx2 hne
            rw [hmaxeq]
            constructor
            · omega
            · omega
          have fb : opFacts s2a (readBumpState s2a p ch2
              ((ch.rx_credits_max : Int) - ch.rx_credits)) := by
            unfold readBumpState
            exact rxBump_facts s2a p ch2 _ hch2 hbound
          have f3 := readPacket_step _ p s2 pkt h
          exact opFacts_trans (stepFacts_to_opFacts f1)
            (opFacts_trans fb (stepFacts_to_opFacts f3))
    · have f3 := readPacket_step s p s2 pkt h
      exact stepFacts_to_opFacts f3

theorem invFacts_trans {s1 s2 s3 : D4State}
    (ha : invFacts s1 s2) (hb : invFacts s2 s3) : invFacts s1 s3 :=
  ⟨fun hg => hb.1 (ha.1 hg), fun hw => ha.2 (hb.2 hw)⟩

theorem stepFacts_to_invFacts {s s2 : D4State} (h : stepFacts s s2) :
    invFacts s s2 :=
  opFacts_to_invFacts (stepFacts_to_opFacts h)

theorem OpenChannelOp_step (s : D4State) (ch : D4Channel) (s2 : D4State)
    (ch2 : D4Channel)
    (hrx : 0 ≤ ch.rx_credits ∧ ch.rx_credits ≤ ch.rx_credits_max)
    (h : OpenChannelOp s ch = some (s2, ch2)) :
    invFacts s s2 ∧ ∃ cp, ch2.psid = some cp ∧
      s2.open_channels cp = some ch2 ∧
      ch2.rx_credits = ch.rx_credits ∧
      ch2.rx_credits_max = ch.rx_credits_max := by
  unfold OpenChannelOp at h
  split_ifs at h with hssid
  cases hcmd : commandOp s 1 ([ch.ssid, ch.ssid] ++ toBytesBE2 0xFFFF ++
      toBytesBE2 0xFFFF ++ toBytesBE2 0 ++ toBytesBE2 0) with
  | none =>
    rw [hcmd] at h
    exact Option.noConfusion h
  | some pr =>
    obtain ⟨s3, res⟩ := pr
    rw [hcmd] at h
    dsimp only at h
    have f1 : stepFacts s s3 :=
      commandOp_step s 1 _ s3 res (Or.inl ⟨by decide, by decide⟩) hcmd
    split at h
    case _ rpsid rssid m1 m2 x1 x2 cr1 cr2 =>
      split_ifs at h with hssid2
      have hs := Option.some.inj h
      have hs1 := congrArg Prod.fst hs
      have hs2 := congrArg Prod.snd hs
      dsimp only at hs1 hs2
      subst hs1
      subst hs2
      constructor
      · refine invFacts_trans (stepFacts_to_invFacts f1) ⟨fun hg3 => ⟨?_, hg3.2⟩,
          fun hw => hw⟩
        intro hw
        obtain ⟨hinv, hal⟩ := hg3.1 hw
        constructor
        · intro p2 chx hcx
          simp only [chUpd] at hcx
          by_cases hp2 : p2 = rpsid
          · rw [if_pos hp2] at hcx
            have hce := Option.some.inj hcx
            subst hce
            constructor
            · simp only []
              positivity
            · intro _
              exact ⟨hrx.1, hrx.2⟩
          · rw [if_neg hp2] at hcx
            exact hinv p2 chx hcx
        · intro p2 chx hcx
          simp only [chUpd] at hcx
          by_cases hp2 : p2 = rpsid
          · rw [if_pos hp2] at hcx
            have hce := Option.some.inj hcx
            subst hce
            left
            simp only []
            rw [hp2]
          · rw [if_neg hp2] at hcx
            exact hal p2 chx hcx
      · exact ⟨rpsid, rfl, by simp [chUpd], rfl, rfl⟩
    case _ =>
      exact Option.noConfusion h

theorem chanEnter_step (s : D4State) (name : List Nat) (s2 : D4State)
    (cpr : Nat) (h : chanEnter s name = some (s2, cpr)) : invFacts s s2 := by
  unfold chanEnter at h
  cases hgs : GetSocketIDOp s name with
  | none =>
    rw [hgs] at h
    exact Option.noConfusion h
  | some pr =>
    obtain ⟨s1, ssid⟩ := pr
    rw [hgs] at h
    dsimp only at h
    have f1 := GetSocketIDOp_step s name s1 ssid hgs
    cases hoc : OpenChannelOp s1 ⟨ssid, none, none, 0, 0, 1, []⟩ with
    | none =>
      rw [hoc] at h
      exact Option.noConfusion h
    | some pr2 =>
      obtain ⟨s2a, ch2⟩ := pr2
      rw [hoc] at h
      dsimp only at h
      obtain ⟨finv2, cp, hpsid2, hentry, hrxeq, hmaxeq⟩ :=
        OpenChannelOp_step s1 _ s2a ch2 ⟨le_refl 0, by norm_num⟩ hoc
      cases hps : ch2.psid with
      | none =>
        rw [hps] at h
        exact Option.noConfusion h
      | some cpx =>
        rw [hps] at h
        dsimp only at h
        have hcpx : cpx = cp := Option.some.inj (hps.symm.trans hpsid2)
        subst hcpx
        cases hcr : CreditOp s2a cpx (ch2.rx_credits_max : Int) with
        | none =>
          rw [hcr] at h
          exact Option.noConfusion h
        | some s3 =>
          rw [hcr] at h
          dsimp only at h
          have f3 := CreditOp_step s2a cpx _ s3 hcr
          cases hch3 : s3.open_channels cpx with
          | none =>
            rw [hch3] at h
            exact Option.noConfusion h
          | some ch3 =>
            rw [hch3] at h
            dsimp only at h
            have hs := Option.some.inj h
            have hs1 := congrArg Prod.fst hs
            dsimp only at hs1
            subst hs1
            have hbound : s3.wfOk = true → Good s3 → cpx ≠ 0 →
                0 ≤ ch3.rx_credits + (ch3.rx_credits_max : Int) ∧
                  ch3.rx_credits + (ch3.rx_credits_max : Int) ≤
                    ch3.rx_credits_max := by
              intro hw3 hg3 hne
              obtain ⟨chy, hcy, hrxle, hmaxy, _, _, _⟩ := f3.2.2.1 cpx ch2 hentry
              have hyy : chy = ch3 := Option.some.inj (hcy.symm.trans hch3)
              rw [hyy] at hrxle hmaxy
              rw [hrxeq] at hrxle
              obtain ⟨_, hrx3⟩ := (hg3.1 hw3).1 cpx ch3 hch3
              obtain ⟨hb1, hb2⟩ := hrx3 hne
              simp only [] at hrxle
              constructor
              · omega
              · omega
            have fb : opFacts s3 (readBumpState s3 cpx ch3 (ch3.rx_credits_max : Int)) := by
              unfold readBumpState
              exact rxBump_facts s3 cpx ch3 _ hch3 hbound
            exact invFacts_trans (stepFacts_to_invFacts f1)
              (invFacts_trans finv2
                (invFacts_trans (stepFacts_to_invFacts f3)
                  (opFacts_to_invFacts fb)))

theorem CloseChannelOp_step (s : D4State) (p : Nat) (s2 : D4State)
    (h : CloseChannelOp s p = some s2) : invFacts s s2 := by
  unfold CloseChannelOp at h
  cases hch : s.open_channels p with
  | none =>
    rw [hch] at h
    exact Option.noConfusion h
  | some ch =>
    rw [hch] at h
    dsimp only at h
    cases hpsid : ch.psid with
    | none =>
      rw [hpsid] at h
      exact Option.noConfusion h
    | some cp =>
      rw [hpsid] at h
      dsimp only at h
      split_ifs at h with hrange
      cases hcmd : commandOp s 2 [cp, ch.ssid] with
      | none =>
        rw [hcmd] at h
        exact Option.noConfusion h
      | some pr =>
        obtain ⟨s3, res⟩ := pr
        rw [hcmd] at h
        dsimp only at h
        have f1 : stepFacts s s3 :=
          commandOp_step s 2 _ s3 res (Or.inl ⟨by decide, by decide⟩) hcmd
        cases hdel : s3.open_channels cp with
        | none =>
          rw [hdel] at h
          exact Option.noConfusion h
        | some chd =>
          rw [hdel] at h
          dsimp only at h
          have hs := Option.some.inj h
          subst hs
          refine invFacts_trans (stepFacts_to_invFacts f1)
            ⟨fun hg3 => ⟨fun hw => ?_, hg3.2⟩, fun hw => hw⟩
          obtain ⟨hinv, hal⟩ := hg3.1 hw
          constructor
          · intro p2 chx hcx
            simp only [] at hcx
            by_cases hp2 : p2 = cp
            · rw [if_pos hp2] at hcx
              exact Option.noConfusion hcx
            · rw [if_neg hp2] at hcx
              exact hinv p2 chx hcx
          · intro p2 chx hcx
            simp only [] at hcx
            by_cases hp2 : p2 = cp
            · rw [if_pos hp2] at hcx
              exact Option.noConfusion hcx
            · rw [if_neg hp2] at hcx
              exact hal p2 chx hcx

theorem execOp_invFacts (s : D4State) (op : D4Op) (s2 : D4State)
    (h : execOp s op = some s2) : invFacts s s2 := by
  cases op with
  | enter name =>
    unfold execOp at h
    dsimp only at h
    cases hc : chanEnter s name with
    | none =>
      rw [hc] at h
      exact Option.noConfusion h
    | some pr =>
      obtain ⟨s2x, cpx⟩ := pr
      rw [hc] at h
      have hs := Option.some.inj h
      dsimp only at hs
      subst hs
      exact chanEnter_step s name s2x cpx hc
  | close p =>
    exact CloseChannelOp_step s p s2 h
  | write p data =>
    exact opFacts_to_invFacts (chanWrite_step s p data s2 h)
  | read p =>
    unfold execOp at h
    dsimp only at h
    cases hc : chanRead s p with
    | none =>
      rw [hc] at h
      exact Option.noConfusion h
    | some pr =>
      obtain ⟨s2x, pktx⟩ := pr
      rw [hc] at h
      have hs := Option.some.inj h
      dsimp only at hs
      subst hs
      exact opFacts_to_invFacts (chanRead_step s p s2x pktx hc)
  | credit p amount =>
    exact stepFacts_to_invFacts (CreditOp_step s p amount s2 h)
  | creditRequest p =>
    unfold execOp at h
    dsimp only at h
    cases hc : CreditRequestOp s p with
    | none =>
      rw [hc] at h
      exact Option.noConfusion h
    | some pr =>
      obtain ⟨s2x, amtx⟩ := pr
      rw [hc] at h
      have hs := Option.some.inj h
      dsimp only at hs
      subst hs
      exact stepFacts_to_invFacts (CreditRequestOp_step s p s2x amtx hc).1

theorem execOp_opFacts (s : D4State) (op : D4Op) (s2 : D4State) (c : Nat)
    (hop : isWriteOrRead c op) (h : execOp s op = some s2) : opFacts s s2 := by
  cases op with
  | write p data =>
    exact chanWrite_step s p data s2 h
  | read p =>
    unfold execOp at h
    dsimp only at h
    cases hc : chanRead s p with
    | none =>
      rw [hc] at h
      exact Option.noConfusion h
    | some pr =>
      obtain ⟨s2x, pktx⟩ := pr
      rw [hc] at h
      have hs := Option.some.inj h
      dsimp only at hs
      subst hs
      exact chanRead_step s p s2x pktx hc
  | enter name => exact absurd hop (by simp [isWriteOrRead])
  | close p => exact absurd hop (by simp [isWriteOrRead])
  | credit p amount => exact absurd hop (by simp [isWriteOrRead])
  | creditRequest p => exact absurd hop (by simp [isWriteOrRead])

theorem execTrace_invFacts : ∀ (ops : List D4Op) (s s2 : D4State),
    execTrace s ops = some s2 → invFacts s s2 := by
  intro ops
  induction ops with
  | nil =>
    intro s s2 h
    have hs := Option.some.inj h
    subst hs
    exact ⟨id, id⟩
  | cons op rest ih =>
    intro s s2 h
    unfold execTrace at h
    cases hop : execOp s op with
    | none =>
      rw [hop] at h
      exact Option.noConfusion h
    | some s3 =>
      rw [hop] at h
      exact invFacts_trans (execOp_invFacts s op s3 hop) (ih s3 s2 h)

theorem execTrace_opFacts : ∀ (ops : List D4Op) (s s2 : D4State) (c : Nat),
    (∀ op ∈ ops, isWriteOrRead c op) →
    execTrace s ops = some s2 → opFacts s s2 := by
  intro ops
  induction ops with
  | nil =>
    intro s s2 c _ h
    have hs := Option.some.inj h
    subst hs
    exact opFacts_refl s
  | cons op rest ih =>
    intro s s2 c hall h
    unfold execTrace at h
    cases hop : execOp s op with
    | none =>
      rw [hop] at h
      exact Option.noConfusion h
    | some s3 =>
      rw [hop] at h
      exact opFacts_trans
        (execOp_opFacts s op s3 c (hall op (List.mem_cons_self _ _)) hop)
        (ih s3 s2 c (fun o hm => hall o (List.mem_cons_of_mem _ hm)) h)

/-! ## Claim C8: reset_waste sequencing and error propagation -/

/-- One write_eeprom call is exactly one send of the corresponding factory
command when the address and value are in range and the framed command fits
the length field. -/
theorem write_eeprom_eq_send (dev : Device) (c : Ctl) (addr value : Nat)
    (ha : addr < 65536) (hv : value < 256)
    (hw : dev.model.length + 3 + (2 + 1 + dev.key.length) < 65536) :
    Printer.write_eeprom dev c addr value =
      ctlSend c (writeEepromCmd dev (addr, value)) := by
  unfold Printer.write_eeprom
  rw [if_pos ⟨ha, hv⟩]
  unfold Printer.send_factory_command
  have hac : action_code 0x42 = some [0x42, 0xBD, 0x21] := by decide
  rw [hac]
  unfold Printer.send_command send_command_bytes intToBytes2LE
  have hl : (dev.model ++ [0x42, 0xBD, 0x21] ++
      (toBytesLE2 addr ++ [value] ++ dev.key)).length =
      dev.model.length + 3 + (2 + 1 + dev.key.length) := by
    simp [toBytesLE2]
    omega
  simp only [Option.bind_eq_bind, hl, if_pos hw, Option.some_bind]
  unfold writeEepromCmd
  simp [List.append_assoc]

/-- Behaviour of the reset_waste loop on any pair list: with the first j
responses successful, the loop issues the first min(j + 1, n) writes in
order; when response j fails the loop stops there and propagates that
error, otherwise it completes successfully. -/
theorem resetWasteAux_spec (dev : Device)
    (hw : dev.model.length + 3 + (2 + 1 + dev.key.length) < 65536) :
    ∀ (l : List (Nat × Nat)) (c : Ctl) (j : Nat),
      (∀ av ∈ l, av.1 < 65536 ∧ av.2 < 256) →
      j ≤ l.length →
      (∀ i, i < j → isOkE (c.responses (c.count + i)) = true) →
      (j < l.length → isOkE (c.responses (c.count + j)) = false) →
      (resetWasteAux dev c l).1.log =
        c.log ++ (l.take (min (j + 1) l.length)).map (writeEepromCmd dev) ∧
      (resetWasteAux dev c l).1.count = c.count + min (j + 1) l.length ∧
      (resetWasteAux dev c l).2 =
        (if j < l.length then (c.responses (c.count + j)).map (fun _ => ())
         else .ok ()) := by
  intro l
  induction l with
  | nil =>
    intro c j _ hj _ _
    have hj0 : j = 0 := by
      simp at hj
      omega
    subst hj0
    simp [resetWasteAux]
  | cons a rest ih =>
    intro c j hr hj hok hfail
    obtain ⟨addr, value⟩ := a
    have hav := hr (addr, value) (List.mem_cons_self _ _)
    unfold resetWasteAux
    rw [write_eeprom_eq_send dev c addr value hav.1 hav.2 hw]
    unfold ctlSend
    cases j with
    | zero =>
      have hf : isOkE (c.responses (c.count + 0)) = false := by
        apply hfail
        simp
      cases hresp : c.responses c.count with
      | ok w =>
        rw [Nat.add_zero] at hf
        rw [hresp] at hf
        simp [isOkE] at hf
      | error e =>
        simp only [hresp]
        have hm1 : min (0 + 1) ((addr, value) :: rest).length = 1 := by
          simp only [List.length_cons]
          omega
        refine ⟨?_, ?_, ?_⟩
        · rw [hm1]
          simp
        · rw [hm1]
        · rw [if_pos (by simp : 0 < ((addr, value) :: rest).length)]
          rw [Nat.add_zero, hresp]
          rfl
    | succ j2 =>
      have h0 : isOkE (c.responses (c.count + 0)) = true := hok 0 (by omega)
      rw [Nat.add_zero] at h0
      cases hresp : c.responses c.count with
      | error e =>
        rw [hresp] at h0
        simp [isOkE] at h0
      | ok w =>
        simp only [hresp]
        have hrec := ih ⟨c.responses, c.count + 1, c.log ++ [writeEepromCmd dev (addr, value)]⟩
          j2 (fun av hm => hr av (List.mem_cons_of_mem _ hm)) (by simpa using hj)
          (fun i hi => by
            have := hok (i + 1) (by omega)
            simpa [Nat.add_assoc, Nat.add_comm 1 i] using this)
          (fun hlt => by
            have := hfail (by simpa using hlt)
            simpa [Nat.add_assoc, Nat.add_comm 1 j2] using this)
        have hmin : min (j2 + 1 + 1) (((addr, value) :: rest).length) =
            min (j2 + 1) rest.length + 1 := by
          simp only [List.length_cons]
          simp only [List.length_cons] at hj
          omega
        have htake : ((addr, value) :: rest).take (min (j2 + 1 + 1) (((addr, value) :: rest).length)) =
            (addr, value) :: rest.take (min (j2 + 1) rest.length) := by
          rw [hmin, List.take_succ_cons]
        refine ⟨?_, ?_, ?_⟩
        · rw [hrec.1, htake]
          simp [List.append_assoc]
        · rw [hrec.2.1, hmin]
          show c.count + 1 + min (j2 + 1) rest.length = c.count + (min (j2 + 1) rest.length + 1)
          omega
        · rw [hrec.2.2]
          by_cases hc : j2 < rest.length
          · rw [if_pos hc,
              if_pos (show j2 + 1 < ((addr, value) :: rest).length by simp; omega)]
            have harg : c.count + 1 + j2 = c.count + (j2 + 1) := by omega
            show Except.map (fun _ => ()) (c.responses (c.count + 1 + j2)) =
              Except.map (fun _ => ()) (c.responses (c.count + (j2 + 1)))
            rw [harg]
          · rw [if_neg hc,
              if_neg (show ¬ (j2 + 1 < ((addr, value) :: rest).length) by simp; omega)]

/-- C8: reset_waste issues one write_eeprom factory command per
(address, value) pair of the device profile's reset map, sequentially and
in order; with the first j responses successful and response j failing, the
error is propagated to the caller and the writes after pair j never reach
the wire; with all responses successful it sends exactly one command per
pair. -/
theorem reset_waste_sequential_spec : ∀ (dev : Device) (c : Ctl) (j : Nat),
    devWf dev → j ≤ dev.reset.length →
    (∀ i, i < j → isOkE (c.responses (c.count + i)) = true) →
    (j < dev.reset.length → isOkE (c.responses (c.count + j)) = false) →
    (Printer.reset_waste dev c).1.log =
      c.log ++ (dev.reset.take (min (j + 1) dev.reset.length)).map (writeEepromCmd dev) ∧
    (Printer.reset_waste dev c).1.count = c.count + min (j + 1) dev.reset.length ∧
    (Printer.reset_waste dev c).2 =
      (if j < dev.reset.length then (c.responses (c.count + j)).map (fun _ => ())
       else .ok ()) := by
  intro dev c j hwf hj hok hfail
  exact resetWasteAux_spec dev hwf.2 dev.reset c j hwf.1 hj hok hfail

/-- C8 witness: a profile with two reset pairs and an always-successful
backend sends exactly the two write commands, in order, and succeeds. -/
theorem reset_waste_sequential_witness :
    devWf ⟨[1], [9], [(16, 0), (17, 0)]⟩ ∧
    (Printer.reset_waste ⟨[1], [9], [(16, 0), (17, 0)]⟩ ⟨fun _ => .ok [], 0, []⟩).1.log =
      [[0x7C, 0x7C, 8, 0, 1, 0x42, 0xBD, 0x21, 16, 0, 0, 9],
       [0x7C, 0x7C, 8, 0, 1, 0x42, 0xBD, 0x21, 17, 0, 0, 9]] ∧
    (Printer.reset_waste ⟨[1], [9], [(16, 0), (17, 0)]⟩ ⟨fun _ => .ok [], 0, []⟩).2 =
      .ok () := by
  have h := reset_waste_sequential_spec ⟨[1], [9], [(16, 0), (17, 0)]⟩
    ⟨fun _ => .ok [], 0, []⟩ 2
    (by constructor
        · intro av hm
          fin_cases hm <;> exact ⟨by omega, by omega⟩
        · simp)
    (by simp) (fun i _ => rfl) (fun hlt => absurd hlt (by simp))
  refine ⟨⟨?_, by simp⟩, h.1.trans (by decide), h.2.2.trans (by rfl)⟩
  intro av hm
  fin_cases hm <;> exact ⟨by omega, by omega⟩

/-! ## Claim C1: the credit-counter invariant -/

/-- C1 counterexample: a fully well-formed exchange (a single Init reply
carrying one credit, credit-respecting throughout) already leaves the
pre-installed control channel 0 with rx_credits = -1 after engine
construction, because replies are consumed without channel 0 ever
advertising receive credit.  This falsifies the claimed bound
0 <= rx_credits for every channel in the table. -/
theorem d4_credit_invariant_counterexample :
    wfPacket initReplyPkt ∧
    (D4.mk [initReplyPkt]).isSome = true ∧
    initRun.wfOk = true ∧
    (initRun.open_channels 0).isSome = true ∧
    ((initRun.open_channels 0).getD ⟨0, none, none, 0, 0, 0, []⟩).rx_credits < 0 := by
  refine ⟨by decide, by decide, by decide, by decide, by decide⟩

/-- C1 (amended): for every engine constructed over well-formed inbound
packets and every sequence of channel opens, closes, writes, reads, Credit
and CreditRequest commands, if the exchange was credit-respecting (every
inbound data-channel packet consumed an advertised credit, recorded by the
wfOk observer), then every channel in the table has tx_credits >= 0 and
every channel other than control channel 0 has
0 <= rx_credits <= rx_credits_max; channel 0's rx_credits drops below zero
as replies arrive, as the counterexample shows, so it is exempt from the
rx_credits bounds. -/
theorem d4_credit_invariant_amended :
    ∀ (inbound : List D4Packet) (ops : List D4Op) (s : D4State),
      (∀ pkt ∈ inbound, wfPacket pkt) →
      mkAndRun inbound ops = some s →
      s.wfOk = true →
      creditInv s := by
  intro inbound ops s hwf h hok
  unfold mkAndRun at h
  cases hmk : D4.mk inbound with
  | none =>
    rw [hmk] at h
    exact Option.noConfusion h
  | some s0 =>
    rw [hmk] at h
    have hginit : Good
        { open_channels := fun q =>
            if q = 0 then some ⟨0, none, none, 1, 0, 1, []⟩ else none,
          inbound := inbound, sent := [], rxLog := [], grantLog := [],
          wfOk := true } := by
      constructor
      · intro _
        constructor
        · intro p ch hc
          dsimp only at hc
          split_ifs at hc with h0
          · have hce := Option.some.inj hc
            subst hce
            exact ⟨by norm_num, fun hne => absurd h0 hne⟩
        · intro p ch hc
          dsimp only at hc
          split_ifs at hc with h0
          · have hce := Option.some.inj hc
            subst hce
            right
            rfl
      · intro pkt hm
        exact (hwf pkt hm).2.2.1
    have hg0 : Good s0 := by
      unfold D4.mk at hmk
      unfold InitOp at hmk
      cases hcmd : commandOp
          { open_channels := fun q =>
              if q = 0 then some ⟨0, none, none, 1, 0, 1, []⟩ else none,
            inbound := inbound, sent := [], rxLog := [], grantLog := [],
            wfOk := true } 0 [0x10] with
      | none =>
        rw [hcmd] at hmk
        exact Option.noConfusion hmk
      | some pr =>
        obtain ⟨s0x, resp⟩ := pr
        rw [hcmd] at hmk
        dsimp only at hmk
        split_ifs at hmk with hresp
        have hs := Option.some.inj hmk
        subst hs
        have f1 := commandOp_step _ 0 [0x10] s0x resp
          (Or.inr (fun _ _ => ⟨⟨0, none, none, 1, 0, 1, []⟩, by simp, by norm_num⟩))
          hcmd
        exact f1.1 hginit
    have hinv := execTrace_invFacts ops s0 s h
    exact ((hinv.1 hg0).1 hok).1

/-- C1 witness: the amended invariant evaluated on the engine constructed
over the single well-formed Init reply, with no further operations. -/
theorem d4_credit_invariant_witness :
    wfPacket initReplyPkt ∧
    mkAndRun [initReplyPkt] [] = some initRun ∧
    initRun.wfOk = true ∧
    creditInv initRun := by
  refine ⟨by decide, rfl, by decide, ?_⟩
  exact d4_credit_invariant_amended [initReplyPkt] [] initRun
    (by decide) rfl (by decide)

/-! ## Claim C3: credit conservation across writes and reads -/

/-- C3 counterexample: starting from a state whose channel 5 has no
transmit credit, a single write of one byte triggers the CreditRequest
path; the peer's grant of 5 credits leaves tx_credits = 4, while the
claimed formula initial + received-credits - packets-sent gives
0 + 0 - 1 = -1.  The grant arrives in a CreditRequest reply on channel 0,
not in the credit field of any packet on channel 5. -/
theorem credit_conservation_counterexample :
    execTrace grantScenario [D4Op.write 5 [9]] = some grantWriteRun ∧
    chTx grantScenario 5 = 0 ∧
    chTx grantWriteRun 5 = 4 ∧
    recvCreditsOn 5 grantWriteRun - recvCreditsOn 5 grantScenario = 0 ∧
    sentOn 5 grantWriteRun - sentOn 5 grantScenario = 1 ∧
    ¬ (chTx grantWriteRun 5 = chTx grantScenario 5 +
        (recvCreditsOn 5 grantWriteRun - recvCreditsOn 5 grantScenario) -
        (sentOn 5 grantWriteRun - sentOn 5 grantScenario)) := by
  refine ⟨rfl, by decide, by decide, by decide, by decide, by decide⟩

/-- C3 (amended): across any finite interleaving of channel writes and
reads on a channel c of an aligned channel table, the final tx_credits
equals the initial tx_credits plus the sum of the credit fields of the
packets received on c, minus the number of packets sent on c, plus the sum
of the CreditRequest grants credited to c (the term the original claim
omits). -/
theorem credit_conservation_amended :
    ∀ (s : D4State) (c : Nat) (ops : List D4Op) (s2 : D4State),
      chanAligned s →
      (∀ op ∈ ops, isWriteOrRead c op) →
      execTrace s ops = some s2 →
      chTx s2 c = chTx s c + (recvCreditsOn c s2 - recvCreditsOn c s)
        - (sentOn c s2 - sentOn c s) + (grantsOn c s2 - grantsOn c s) := by
  intro s c ops s2 hal hops h
  have hf := execTrace_opFacts ops s s2 c hops h
  have hl := (hf.2.2 hal).2 c
  unfold ledger at hl
  omega

/-- C3 witness: the amended conservation law evaluated on the
grant-scenario write. -/
theorem credit_conservation_witness :
    chTx grantWriteRun 5 = chTx grantScenario 5 +
      (recvCreditsOn 5 grantWriteRun - recvCreditsOn 5 grantScenario) -
      (sentOn 5 grantWriteRun - sentOn 5 grantScenario) +
      (grantsOn 5 grantWriteRun - grantsOn 5 grantScenario) := by
  refine credit_conservation_amended grantScenario 5 [D4Op.write 5 [9]]
    grantWriteRun ?_ ?_ rfl
  · intro p ch h
    unfold grantScenario at h
    dsimp only at h
    split_ifs at h with h0 h5
    · have he := (Option.some.inj h).symm
      subst he
      right
      rfl
    · have he := (Option.some.inj h).symm
      subst he
      left
      rw [h5]
  · intro op hm
    rcases List.mem_singleton.mp hm with rfl
    rfl

/-! ## Claim C4: the channel write path -/

theorem chunksOf1Aux_congr (k : Nat) : ∀ (fuel fuel2 : Nat) (l : List Nat),
    l.length ≤ fuel → l.length ≤ fuel2 →
    chunksOf1Aux k fuel l = chunksOf1Aux k fuel2 l := by
  intro fuel
  induction fuel with
  | zero =>
    intro fuel2 l h1 _
    have : l = [] := List.eq_nil_of_length_eq_zero (by omega)
    subst this
    cases fuel2 <;> rfl
  | succ fuel ih =>
    intro fuel2 l h1 h2
    cases l with
    | nil => cases fuel2 <;> rfl
    | cons a l2 =>
      cases fuel2 with
      | zero =>
        simp at h2
      | succ fuel2 =>
        unfold chunksOf1Aux
        have hl : l2.length + 1 ≤ fuel + 1 := by simpa using h1
        have hl2 : l2.length + 1 ≤ fuel2 + 1 := by simpa using h2
        have hd : ((a :: l2).drop (k + 1)).length ≤ fuel := by
          simp [List.length_drop, List.length_cons]
          omega
        have hd2 : ((a :: l2).drop (k + 1)).length ≤ fuel2 := by
          simp [List.length_drop, List.length_cons]
          omega
        rw [ih fuel2 _ hd hd2]

theorem chunksOf1_cons (k a : Nat) (l : List Nat) :
    chunksOf1 k (a :: l) = (a :: l).take (k + 1) ::
      chunksOf1 k ((a :: l).drop (k + 1)) := by
  have h1 : chunksOf1 k (a :: l) = (a :: l).take (k + 1) ::
      chunksOf1Aux k l.length ((a :: l).drop (k + 1)) := rfl
  rw [h1]
  congr 1
  unfold chunksOf1
  apply chunksOf1Aux_congr
  · simp [List.length_drop, List.length_cons]
  · exact le_refl _

theorem fragPayload_eq_take (m : Nat) (data : List Nat) :
    fragPayload m data = data.take (m - 6) := by
  unfold fragPayload
  split_ifs with h
  · rfl
  · rw [List.take_of_length_le (by omega)]

theorem fragPayload_drop (m : Nat) (data : List Nat) :
    data.drop (fragPayload m data).length = data.drop (m - 6) := by
  rw [fragPayload_eq_take, List.length_take]
  rcases le_or_lt data.length (m - 6) with h | h
  · rw [min_eq_right h, List.drop_length, List.drop_of_length_le h]
  · rw [min_eq_left (le_of_lt h)]

/-- Exact behaviour of the write loop when the channel starts with enough
transmit credits for every fragment: it emits one packet per chunk of size
mtu - 6, each with control = 2 and the piggyback credit law, exchanges no
other traffic, and ends with rx_credits raised by the credits advertised
and tx_credits lowered by exactly one per packet. -/
theorem writeLoop_frag_spec : ∀ (fuel : Nat) (s : D4State) (p : Nat)
    (ch : D4Channel) (m : Nat) (data : List Nat),
    data.length < fuel →
    s.open_channels p = some ch →
    ch.mtu = some m → 7 ≤ m → m ≤ 65535 →
    ch.psid = some p → p ≤ 255 → ch.ssid ≤ 255 →
    0 ≤ ch.rx_credits → ch.rx_credits ≤ ch.rx_credits_max →
    ((chunksOf1 (m - 7) data).length : Int) ≤ ch.tx_credits →
    ∃ s2 F, writeLoop fuel s p data = some s2 ∧
      F.map (fun pkt => pkt.payload) = chunksOf1 (m - 7) data ∧
      (∀ pkt ∈ F, pkt.control = 2 ∧ pkt.psid = p ∧ pkt.ssid = ch.ssid) ∧
      creditsFrom ch.rx_credits_max ch.rx_credits F ∧
      s2.sent = s.sent ++ F ∧
      s2.inbound = s.inbound ∧
      (∀ q, q ≠ p → s2.open_channels q = s.open_channels q) ∧
      s2.open_channels p = some { ch with
        rx_credits := ch.rx_credits + (F.map (fun pkt => pkt.credit)).sum,
        tx_credits := ch.tx_credits - F.length } := by
  intro fuel
  induction fuel with
  | zero =>
    intro s p ch m data hfu
    exact absurd hfu (Nat.not_lt_zero _)
  | succ fuel ih =>
    intro s p ch m data hfu hch hmtu hm7 hm65 hpsid hp255 hssid hrx0 hrxm htx
    cases data with
    | nil =>
      refine ⟨s, [], rfl, rfl, ?_, trivial, by simp, rfl, fun q _ => rfl, ?_⟩
      · intro pkt hm
        exact absurd hm (List.not_mem_nil _)
      · rw [hch]
        congr 1
        simp
    | cons d0 drest =>
      have hchunks : chunksOf1 (m - 7) (d0 :: drest) =
          (d0 :: drest).take (m - 6) ::
            chunksOf1 (m - 7) ((d0 :: drest).drop (m - 6)) := by
        have h76 : m - 7 + 1 = m - 6 := by omega
        rw [chunksOf1_cons, h76]
      have hlen1 : (1 : Int) ≤ ch.tx_credits := by
        rw [hchunks] at htx
        rw [List.length_cons] at htx
        push_cast at htx
        omega
      have hfragtake : fragPayload m (d0 :: drest) = (d0 :: drest).take (m - 6) :=
        fragPayload_eq_take m (d0 :: drest)
      have hfraglen : (fragPayload m (d0 :: drest)).length ≤ m - 6 := by
        rw [hfragtake, List.length_take]
        omega
      have hfragpos : 1 ≤ (fragPayload m (d0 :: drest)).length := by
        rw [hfragtake, List.length_take]
        simp [List.length_cons]
        omega
      have hcred0 : 0 ≤ fragCredit ch := by
        unfold fragCredit
        omega
      have hcred255 : fragCredit ch ≤ 255 := by
        unfold fragCredit
        omega
      have hens : ensureCredit (writeFragState s p ch) p =
          some (writeFragState s p ch) := by
        unfold ensureCredit writeFragState
        have hnl : ¬ (ch.tx_credits < 1) := by omega
        simp [chUpd, hnl]
      have hwp : writePacket (writeFragState s p ch) p
          ⟨p, ch.ssid, fragCredit ch, 2, fragPayload m (d0 :: drest)⟩ =
          some { s with
            open_channels := chUpd s.open_channels p
              ({ ch with rx_credits := ch.rx_credits + fragCredit ch,
                         tx_credits := ch.tx_credits - 1 }),
            sent := s.sent ++
              [⟨p, ch.ssid, fragCredit ch, 2, fragPayload m (d0 :: drest)⟩] } := by
        unfold writePacket writeFragState
        rw [if_pos ⟨hp255, hssid, by simp only []; omega, hcred0, hcred255,
          by norm_num⟩]
        dsimp only
        rw [chUpd_same]
        dsimp only
        rw [chUpd_chUpd]
      have hchx : (({ s with
          open_channels := chUpd s.open_channels p
            ({ ch with rx_credits := ch.rx_credits + fragCredit ch,
                       tx_credits := ch.tx_credits - 1 }),
          sent := s.sent ++
            [⟨p, ch.ssid, fragCredit ch, 2, fragPayload m (d0 :: drest)⟩] } :
            D4State).open_channels) p =
          some { ch with rx_credits := ch.rx_credits + fragCredit ch,
                         tx_credits := ch.tx_credits - 1 } := by
        simp [chUpd]
      have hdrop : (d0 :: drest).drop (fragPayload m (d0 :: drest)).length =
          (d0 :: drest).drop (m - 6) := fragPayload_drop m (d0 :: drest)
      have hrec := ih { s with
          open_channels := chUpd s.open_channels p
            ({ ch with rx_credits := ch.rx_credits + fragCredit ch,
                       tx_credits := ch.tx_credits - 1 }),
          sent := s.sent ++
            [⟨p, ch.ssid, fragCredit ch, 2, fragPayload m (d0 :: drest)⟩] }
        p { ch with rx_credits := ch.rx_credits + fragCredit ch,
                    tx_credits := ch.tx_credits - 1 }
        m ((d0 :: drest).drop (m - 6))
        (by
          rw [List.length_drop]
          rw [List.length_cons] at hfu ⊢
          omega)
        hchx hmtu hm7 hm65 hpsid hp255 hssid
        (by simp only []; omega)
        (by
          simp only []
          unfold fragCredit
          omega)
        (by
          simp only []
          rw [hchunks, List.length_cons] at htx
          push_cast at htx ⊢
          omega)
      obtain ⟨s2, F2, hrecrun, hmap, hall, hcreds, hsent, hinb, hothers, hentry⟩ :=
        hrec
      refine ⟨s2, ⟨p, ch.ssid, fragCredit ch, 2, fragPayload m (d0 :: drest)⟩ :: F2,
        ?_, ?_, ?_, ?_, ?_, ?_, ?_, ?_⟩
      · unfold writeLoop
        rw [hch]
        dsimp only
        rw [hmtu]
        dsimp only
        rw [hpsid]
        dsimp only
        rw [hens]
        dsimp only
        rw [hwp]
        dsimp only
        rw [hdrop]
        exact hrecrun
      · rw [List.map_cons, hmap, hchunks, hfragtake]
      · intro pkt hm
        rcases List.mem_cons.mp hm with rfl | hm2
        · exact ⟨rfl, rfl, rfl⟩
        · exact hall pkt hm2
      · exact ⟨rfl, hcreds⟩
      · rw [hsent]
        simp [List.append_assoc]
      · exact hinb
      · intro q hq
        rw [hothers q hq]
        simp [chUpd, hq]
      · rw [hentry]
        congr 2
        · simp only [List.length_cons]
          push_cast
          ring
        · simp only [List.map_cons, List.sum_cons]
          ring

/-- C4: on an opened channel with mtu m and a non-empty payload, and with a
transmit credit available for every fragment (so the loop never blocks in
_ensure_credit waiting for a CreditRequest grant), D4Channel.write splits
the payload into consecutive chunks of size m - 6 (the last possibly
shorter), emits exactly one packet per chunk in order, sets control = 2 on
every packet, piggybacks credit = min(rx_credits_max - rx_credits, 0xFF)
on each packet while adding that credit to rx_credits, and decrements
tx_credits by exactly 1 per emitted packet. -/
theorem channel_write_spec (s : D4State) (p : Nat) (ch : D4Channel)
    (m : Nat) (data : List Nat)
    (hch : s.open_channels p = some ch)
    (hmtu : ch.mtu = some m) (hm7 : 7 ≤ m) (hm65 : m ≤ 65535)
    (hpsid : ch.psid = some p) (hp255 : p ≤ 255) (hssid : ch.ssid ≤ 255)
    (hrx0 : 0 ≤ ch.rx_credits)
    (hrxm : ch.rx_credits ≤ (ch.rx_credits_max : Int))
    (htx : ((chunksOf1 (m - 7) data).length : Int) ≤ ch.tx_credits)
    (hne : data ≠ []) :
    ∃ s2 F, chanWrite s p data = some s2 ∧ F ≠ [] ∧
      F.map (fun pkt => pkt.payload) = chunksOf1 (m - 7) data ∧
      (∀ pkt ∈ F, pkt.control = 2 ∧ pkt.psid = p ∧ pkt.ssid = ch.ssid) ∧
      creditsFrom ch.rx_credits_max ch.rx_credits F ∧
      s2.sent = s.sent ++ F ∧
      s2.open_channels p = some { ch with
        rx_credits := ch.rx_credits + (F.map (fun pkt => pkt.credit)).sum,
        tx_credits := ch.tx_credits - F.length } := by
  obtain ⟨s2, F, hrun, hmap, hctl, hcred, hsent, _, _, hentry⟩ :=
    writeLoop_frag_spec (data.length + 1) s p ch m data
      (Nat.lt_succ_self _) hch hmtu hm7 hm65 hpsid hp255 hssid hrx0 hrxm htx
  refine ⟨s2, F, hrun, ?_, hmap, hctl, hcred, hsent, hentry⟩
  intro hF
  cases data with
  | nil => exact hne rfl
  | cons a l =>
    rw [hF, chunksOf1_cons] at hmap
    exact List.noConfusion hmap

/-- Witness for C4: writing a 15-byte payload on channel 5 of
quietScenario (mtu 20, tx_credits 3) satisfies every hypothesis of
channel_write_spec at concrete values. -/
theorem channel_write_witness :
    ∃ s2 F, chanWrite quietScenario 5
        [1, 2, 3, 4, 5, 6, 7, 8, 9, 10, 11, 12, 13, 14, 15] = some s2 ∧
      F ≠ [] ∧
      F.map (fun pkt => pkt.payload) =
        chunksOf1 13 [1, 2, 3, 4, 5, 6, 7, 8, 9, 10, 11, 12, 13, 14, 15] ∧
      (∀ pkt ∈ F, pkt.control = 2 ∧ pkt.psid = 5 ∧ pkt.ssid = 5) ∧
      creditsFrom 1 1 F ∧
      s2.sent = quietScenario.sent ++ F ∧
      s2.open_channels 5 = some {
        ssid := 5, psid := some 5, mtu := some 20,
        tx_credits := 3 - (F.length : Int),
        rx_credits := 1 + (F.map (fun pkt => pkt.credit)).sum,
        rx_credits_max := 1, rx_queue := [] } :=
  channel_write_spec quietScenario 5 ⟨5, some 5, some 20, 3, 1, 1, []⟩ 20
    [1, 2, 3, 4, 5, 6, 7, 8, 9, 10, 11, 12, 13, 14, 15]
    rfl rfl (by decide) (by decide) rfl (by decide) (by decide) (by decide)
    (by decide) (by decide) (by decide)
